import Mathlib

/-!
Verification of the routine-item priority-reordering logic of the Planner
repository (`backend/apps/daily/models/model_routine.py`).

A `RoutineItem` row carries a primary key, the key of its owning routine and a
nullable positive-integer priority.  `RoutineItem.save` and
`RoutineItem.delete` override the persistence lifecycle: they issue bulk
`priority ± 1` shifts so that every routine's priorities stay a dense
sequence `1, 2, …, count`.  The definitions below embed those two methods
over an explicit list-of-rows database; the theorems settle the claims about
them.
-/

/-- A persisted `RoutineItem` row: primary key, owning routine's key, and the
nullable priority field (`priority = none` models SQL `NULL`). -/
structure RoutineItemRow where
  id : Nat
  routine : Nat
  priority : Option Nat
deriving DecidableEq, Repr

/-- The `RoutineItem` table. -/
abbrev DB := List RoutineItemRow

/-- SQL lookup `priority__gte=p`: a `NULL` priority matches nothing. -/
def priGe : Option Nat → Nat → Bool
  | some q, p => p ≤ q
  | none, _ => false

/-- SQL lookup `priority__gt=p`: a `NULL` priority matches nothing. -/
def priGt : Option Nat → Nat → Bool
  | some q, p => p < q
  | none, _ => false

/-- SQL lookup `priority__lt=p`: a `NULL` priority matches nothing. -/
def priLt : Option Nat → Nat → Bool
  | some q, p => q < p
  | none, _ => false

/-- SQL lookup `priority__lte=p`: a `NULL` priority matches nothing. -/
def priLe : Option Nat → Nat → Bool
  | some q, p => q ≤ p
  | none, _ => false

/-- Effect of `.update(priority=F('priority') + 1)` on a single row. -/
def incRow (row : RoutineItemRow) : RoutineItemRow :=
  { row with priority := row.priority.map (fun q => q + 1) }

/-- Effect of `.update(priority=F('priority') - 1)` on a single row. -/
def decRow (row : RoutineItemRow) : RoutineItemRow :=
  { row with priority := row.priority.map (fun q => q - 1) }

/-- `filter(routine=r, priority__gte=p).update(priority=F('priority') + 1)` —
the insert shift used on creation and on cross-routine placement. -/
def shiftUpFrom (db : DB) (r p : Nat) : DB :=
  db.map fun row =>
    if row.routine == r && priGe row.priority p then incRow row else row

/-- `filter(routine=r, priority__gt=p).update(priority=F('priority') - 1)` —
the gap-closing shift used on deletion and on leaving a routine. -/
def shiftDownAfter (db : DB) (r p : Nat) : DB :=
  db.map fun row =>
    if row.routine == r && priGt row.priority p then decRow row else row

/-- `filter(routine=r, priority__gte=a, priority__lt=b).update(priority=F('priority') + 1)` —
the shift used when an item moves toward the front of its own routine. -/
def shiftUpRange (db : DB) (r a b : Nat) : DB :=
  db.map fun row =>
    if row.routine == r && priGe row.priority a && priLt row.priority b then
      incRow row
    else row

/-- `filter(routine=r, priority__gt=a, priority__lte=b).update(priority=F('priority') - 1)` —
the shift used when an item moves toward the back of its own routine. -/
def shiftDownRange (db : DB) (r a b : Nat) : DB :=
  db.map fun row =>
    if row.routine == r && priGt row.priority a && priLe row.priority b then
      decRow row
    else row

/-- Maximum of a list of naturals, `none` on the empty list. -/
def maxOpt : List Nat → Option Nat
  | [] => none
  | q :: qs =>
    match maxOpt qs with
    | none => some q
    | some m => some (max q m)

/-- `RoutineItem.objects.filter(routine=r).aggregate(Max('priority'))['priority__max']`:
`NULL` priorities are ignored by the SQL `MAX`, and the result is `NULL`
when no row contributes. -/
def maxPriority (db : DB) (r : Nat) : Option Nat :=
  maxOpt ((db.filter fun row => row.routine == r).filterMap fun row => row.priority)

/-- Django's `Model.save()` row write for a known primary key `i`: an SQL
`UPDATE` when some row has that key, otherwise an `INSERT`. -/
def writeRow (db : DB) (i r : Nat) (p : Option Nat) : DB :=
  if db.any fun row => row.id == i then
    db.map fun row => if row.id == i then ⟨i, r, p⟩ else row
  else
    db ++ [⟨i, r, p⟩]

/-- `RoutineItem.objects.get(pk=i)` (primary keys are unique in a real store;
theorems that need uniqueness assume it explicitly). -/
def findRow (db : DB) (i : Nat) : Option RoutineItemRow :=
  db.find? fun row => row.id == i

/-- The overridden `RoutineItem.save`.  `pk = none` is a create — the fresh
row is inserted with key `newId` — and `pk = some i` is an update of row `i`.
`routine` and `priority` are the instance fields being saved.  The result is
`none` exactly where the Python raises (comparing an integer priority with
`None`, or filtering `priority__gt=None`); `transaction.atomic` then rolls
every shift back, so no partial state is returned. -/
def RoutineItem.save (db : DB) (pk : Option Nat) (newId routine : Nat)
    (priority : Option Nat) : Option DB :=
  match pk with
  | none =>
    match priority with
    | none =>
      let p := (maxPriority db routine).getD 0 + 1
      some (db ++ [⟨newId, routine, some p⟩])
    | some p =>
      some (shiftUpFrom db routine p ++ [⟨newId, routine, some p⟩])
  | some i =>
    match findRow db i with
    | none => some (writeRow db i routine priority)
    | some old =>
      if old.routine ≠ routine then
        match old.priority with
        | none => none
        | some oldP =>
          let db1 := shiftDownAfter db old.routine oldP
          match priority with
          | none =>
            let p := (maxPriority db1 routine).getD 0 + 1
            some (writeRow db1 i routine (some p))
          | some p =>
            some (writeRow (shiftUpFrom db1 routine p) i routine (some p))
      else if old.priority ≠ priority then
        let p :=
          match priority with
          | none => (maxPriority db routine).getD 0 + 1
          | some q => q
        match old.priority with
        | none => none
        | some oldP =>
          if p < oldP then
            some (writeRow (shiftUpRange db routine p oldP) i routine (some p))
          else
            some (writeRow (shiftDownRange db routine oldP p) i routine (some p))
      else
        some (writeRow db i routine priority)

/-- The overridden `RoutineItem.delete`: capture `(routine, priority)`, delete
the row, then close the gap with a bulk decrement on every sibling at a
higher priority.  A `NULL` captured priority makes the `priority__gt` lookup
raise, which `transaction.atomic` rolls back — modelled as `none`. -/
def RoutineItem.delete (db : DB) (self : RoutineItemRow) : Option DB :=
  match self.priority with
  | none => none
  | some p =>
    some (shiftDownAfter (db.filter fun row => !(row.id == self.id))
      self.routine p)

/-- The stored priorities of routine `r`, in row order. -/
def prioList (db : DB) (r : Nat) : List (Option Nat) :=
  (db.filter fun row => row.routine == r).map fun row => row.priority

/-- The list `[some 1, …, some n]`. -/
def targetPriorities (n : Nat) : List (Option Nat) :=
  (List.range n).map fun k => some (k + 1)

/-- Routine `r` is densely ordered: its stored priorities are exactly
`{1, …, n}`, each occurring once (and none of them `NULL`). -/
def denseRoutine (db : DB) (r n : Nat) : Prop :=
  List.Perm (prioList db r) (targetPriorities n)

instance (db : DB) (r n : Nat) : Decidable (denseRoutine db r n) := by
  unfold denseRoutine
  exact List.decidablePerm _ _

/-- How many rows of routine `r` store priority `x`. -/
def countPri (db : DB) (r : Nat) (x : Option Nat) : Nat :=
  (prioList db r).count x

/-- The rows of routine `s`, in row order. -/
def routineRows (db : DB) (s : Nat) : DB :=
  db.filter fun row => row.routine == s

/-- Row `old` is the unique row with primary key `i` in `db`. -/
def uniqueRow (db : DB) (i : Nat) (old : RoutineItemRow) : Prop :=
  old ∈ db ∧ old.id = i ∧ (db.countP fun row => row.id == i) = 1

instance (db : DB) (i : Nat) (old : RoutineItemRow) :
    Decidable (uniqueRow db i old) := by
  unfold uniqueRow
  infer_instance

/-! ### Counting helpers -/

lemma countPri_nil (r : Nat) (x : Option Nat) : countPri [] r x = 0 := rfl

lemma countPri_cons (row : RoutineItemRow) (db : DB) (r : Nat) (x : Option Nat) :
    countPri (row :: db) r x =
      (if row.routine = r ∧ row.priority = x then 1 else 0) + countPri db r x := by
  unfold countPri prioList
  by_cases hr : row.routine = r
  · by_cases hx : row.priority = x <;>
      simp [List.filter_cons, hr, hx, List.count_cons, Nat.add_comm]
  · simp [List.filter_cons, hr]

lemma countPri_append (db1 db2 : DB) (r : Nat) (x : Option Nat) :
    countPri (db1 ++ db2) r x = countPri db1 r x + countPri db2 r x := by
  unfold countPri prioList
  rw [List.filter_append, List.map_append, List.count_append]

lemma shiftUpFrom_cons (row : RoutineItemRow) (db : DB) (r p : Nat) :
    shiftUpFrom (row :: db) r p =
      (if row.routine == r && priGe row.priority p then incRow row else row) ::
        shiftUpFrom db r p := rfl

lemma shiftDownAfter_cons (row : RoutineItemRow) (db : DB) (r p : Nat) :
    shiftDownAfter (row :: db) r p =
      (if row.routine == r && priGt row.priority p then decRow row else row) ::
        shiftDownAfter db r p := rfl

lemma shiftUpRange_cons (row : RoutineItemRow) (db : DB) (r a b : Nat) :
    shiftUpRange (row :: db) r a b =
      (if row.routine == r && priGe row.priority a && priLt row.priority b then
          incRow row
        else row) :: shiftUpRange db r a b := rfl

lemma shiftDownRange_cons (row : RoutineItemRow) (db : DB) (r a b : Nat) :
    shiftDownRange (row :: db) r a b =
      (if row.routine == r && priGt row.priority a && priLe row.priority b then
          decRow row
        else row) :: shiftDownRange db r a b := rfl

lemma countPri_shiftUpFrom (db : DB) (r p q : Nat) :
    countPri (shiftUpFrom db r p) r (some q) =
      if q < p then countPri db r (some q)
      else if q = p then 0
      else countPri db r (some (q - 1)) := by
  induction db with
  | nil => simp [shiftUpFrom, countPri_nil]
  | cons row db ih =>
    rw [shiftUpFrom_cons]
    simp only [countPri_cons, ih]
    rcases hrp : row.priority with _ | q'
    · by_cases hr : row.routine = r <;>
        simp [hrp, hr, priGe, incRow] <;> split_ifs <;> omega
    · by_cases hr : row.routine = r <;> by_cases hpq : p ≤ q' <;>
        simp [hrp, hr, hpq, priGe, incRow] <;> split_ifs <;> omega

lemma countPri_shiftUpFrom_none (db : DB) (r p : Nat) :
    countPri (shiftUpFrom db r p) r none = countPri db r none := by
  induction db with
  | nil => simp [shiftUpFrom, countPri_nil]
  | cons row db ih =>
    rw [shiftUpFrom_cons]
    simp only [countPri_cons, ih]
    rcases hrp : row.priority with _ | q'
    · by_cases hr : row.routine = r <;> simp [hrp, hr, priGe, incRow]
    · by_cases hr : row.routine = r <;> by_cases hpq : p ≤ q' <;>
        simp [hrp, hr, hpq, priGe, incRow]

lemma countPri_shiftDownAfter (db : DB) (r p q : Nat) :
    countPri (shiftDownAfter db r p) r (some q) =
      if q < p then countPri db r (some q)
      else if q = p then countPri db r (some p) + countPri db r (some (p + 1))
      else countPri db r (some (q + 1)) := by
  induction db with
  | nil => simp [shiftDownAfter, countPri_nil]
  | cons row db ih =>
    rw [shiftDownAfter_cons]
    simp only [countPri_cons, ih]
    rcases hrp : row.priority with _ | q'
    · by_cases hr : row.routine = r <;>
        simp [hrp, hr, priGt, decRow] <;> split_ifs <;> omega
    · by_cases hr : row.routine = r <;> by_cases hpq : p < q' <;>
        simp [hrp, hr, hpq, priGt, decRow] <;> split_ifs <;> omega

lemma countPri_shiftDownAfter_none (db : DB) (r p : Nat) :
    countPri (shiftDownAfter db r p) r none = countPri db r none := by
  induction db with
  | nil => simp [shiftDownAfter, countPri_nil]
  | cons row db ih =>
    rw [shiftDownAfter_cons]
    simp only [countPri_cons, ih]
    rcases hrp : row.priority with _ | q'
    · by_cases hr : row.routine = r <;> simp [hrp, hr, priGt, decRow]
    · by_cases hr : row.routine = r <;> by_cases hpq : p < q' <;>
        simp [hrp, hr, hpq, priGt, decRow]

lemma countPri_shiftUpRange (db : DB) (r a b q : Nat) (hab : a < b) :
    countPri (shiftUpRange db r a b) r (some q) =
      if q < a then countPri db r (some q)
      else if q = a then 0
      else if q < b then countPri db r (some (q - 1))
      else if q = b then countPri db r (some b) + countPri db r (some (b - 1))
      else countPri db r (some q) := by
  induction db with
  | nil => simp [shiftUpRange, countPri_nil]
  | cons row db ih =>
    rw [shiftUpRange_cons]
    simp only [countPri_cons, ih]
    rcases hrp : row.priority with _ | q'
    · by_cases hr : row.routine = r <;>
        simp [hrp, hr, priGe, priLt, incRow] <;> split_ifs <;> omega
    · by_cases hr : row.routine = r <;> by_cases ha : a ≤ q' <;>
        by_cases hb : q' < b <;>
        simp [hrp, hr, ha, hb, priGe, priLt, incRow] <;> split_ifs <;> omega

lemma countPri_shiftUpRange_none (db : DB) (r a b : Nat) :
    countPri (shiftUpRange db r a b) r none = countPri db r none := by
  induction db with
  | nil => simp [shiftUpRange, countPri_nil]
  | cons row db ih =>
    rw [shiftUpRange_cons]
    simp only [countPri_cons, ih]
    rcases hrp : row.priority with _ | q'
    · by_cases hr : row.routine = r <;> simp [hrp, hr, priGe, priLt, incRow]
    · by_cases hr : row.routine = r <;> by_cases ha : a ≤ q' <;>
        by_cases hb : q' < b <;>
        simp [hrp, hr, ha, hb, priGe, priLt, incRow]

lemma countPri_shiftDownRange (db : DB) (r a b q : Nat) (hab : a < b) :
    countPri (shiftDownRange db r a b) r (some q) =
      if q < a then countPri db r (some q)
      else if q = a then countPri db r (some a) + countPri db r (some (a + 1))
      else if q < b then countPri db r (some (q + 1))
      else if q = b then 0
      else countPri db r (some q) := by
  induction db with
  | nil => simp [shiftDownRange, countPri_nil]
  | cons row db ih =>
    rw [shiftDownRange_cons]
    simp only [countPri_cons, ih]
    rcases hrp : row.priority with _ | q'
    · by_cases hr : row.routine = r <;>
        simp [hrp, hr, priGt, priLe, decRow] <;> split_ifs <;> omega
    · by_cases hr : row.routine = r <;> by_cases ha : a < q' <;>
        by_cases hb : q' ≤ b <;>
        simp [hrp, hr, ha, hb, priGt, priLe, decRow] <;> split_ifs <;> omega

lemma countPri_shiftDownRange_none (db : DB) (r a b : Nat) :
    countPri (shiftDownRange db r a b) r none = countPri db r none := by
  induction db with
  | nil => simp [shiftDownRange, countPri_nil]
  | cons row db ih =>
    rw [shiftDownRange_cons]
    simp only [countPri_cons, ih]
    rcases hrp : row.priority with _ | q'
    · by_cases hr : row.routine = r <;> simp [hrp, hr, priGt, priLe, decRow]
    · by_cases hr : row.routine = r <;> by_cases ha : a < q' <;>
        by_cases hb : q' ≤ b <;>
        simp [hrp, hr, ha, hb, priGt, priLe, decRow]

/-! ### Unique primary keys, `writeRow`, `maxOpt` -/

lemma uniqueRow_eq :
    ∀ (db : DB) (i : Nat) (old : RoutineItemRow), uniqueRow db i old →
      ∀ row ∈ db, row.id = i → row = old := by
  intro db
  induction db with
  | nil => intro i old h row hrow; simp at hrow
  | cons a l ih =>
    intro i old h row hrow hri
    obtain ⟨hmem, hid, hcount⟩ := h
    rw [List.countP_cons] at hcount
    rcases List.mem_cons.mp hmem with h1 | h1
    · subst h1
      rcases List.mem_cons.mp hrow with h2 | h2
      · exact h2
      · exfalso
        rw [if_pos (by simp [hid] : (old.id == i) = true)] at hcount
        have hpos : 0 < l.countP fun row => row.id == i :=
          List.countP_pos_iff.mpr ⟨row, h2, by simp [hri]⟩
        omega
    · by_cases ha : a.id = i
      · exfalso
        rw [if_pos (by simp [ha] : (a.id == i) = true)] at hcount
        have hpos : 0 < l.countP fun row => row.id == i :=
          List.countP_pos_iff.mpr ⟨old, h1, by simp [hid]⟩
        omega
      · rcases List.mem_cons.mp hrow with h2 | h2
        · exact absurd (h2 ▸ hri) ha
        · refine ih i old ⟨h1, hid, ?_⟩ row h2 hri
          rw [if_neg (by simp [ha] : ¬(a.id == i) = true)] at hcount
          omega

lemma findRow_of_uniqueRow :
    ∀ (db : DB) (i : Nat) (old : RoutineItemRow), uniqueRow db i old →
      findRow db i = some old := by
  intro db
  induction db with
  | nil => intro i old h; exact absurd h.1 (by simp)
  | cons a l ih =>
    intro i old h
    by_cases ha : a.id = i
    · have hae : a = old := uniqueRow_eq (a :: l) i old h a (List.mem_cons_self a l) ha
      unfold findRow
      rw [List.find?_cons_of_pos _ (by simp [ha])]
      rw [hae]
    · obtain ⟨hmem, hid, hcount⟩ := h
      have hol : old ∈ l := by
        rcases List.mem_cons.mp hmem with h1 | h1
        · exact absurd (h1 ▸ hid) ha
        · exact h1
      unfold findRow
      rw [List.find?_cons_of_neg _ (by simp [ha])]
      refine ih i old ⟨hol, hid, ?_⟩
      rw [List.countP_cons,
        if_neg (by simp [ha] : ¬(a.id == i) = true)] at hcount
      omega

lemma any_id_of_mem {db : DB} {i : Nat} {old : RoutineItemRow}
    (hmem : old ∈ db) (hid : old.id = i) :
    (db.any fun row => row.id == i) = true :=
  List.any_eq_true.mpr ⟨old, hmem, by simp [hid]⟩

lemma countPri_replaceRow :
    ∀ (db : DB) (i r : Nat) (p : Option Nat) (old : RoutineItemRow)
      (r' : Nat) (x : Option Nat),
      (∀ row ∈ db, row.id = i → row = old) →
      countPri (db.map fun row => if row.id == i then ⟨i, r, p⟩ else row) r' x
          + (db.countP fun row => row.id == i)
            * (if old.routine = r' ∧ old.priority = x then 1 else 0)
        = countPri db r' x
          + (db.countP fun row => row.id == i)
            * (if r = r' ∧ p = x then 1 else 0) := by
  intro db
  induction db with
  | nil => intro i r p old r' x h; simp [countPri_nil]
  | cons a l ih =>
    intro i r p old r' x h
    have ha' := fun (row : RoutineItemRow) hrow => h row (List.mem_cons_of_mem a hrow)
    have hrec := ih i r p old r' x ha'
    simp only [List.map_cons, countPri_cons, List.countP_cons]
    by_cases ha : a.id = i
    · have hao : a = old := h a (List.mem_cons_self a l) ha
      subst hao
      have hbeq : (a.id == i) = true := by simp [ha]
      simp only [hbeq, if_true]
      split_ifs at hrec ⊢ <;>
        simp only [Nat.mul_one, Nat.mul_zero] at hrec ⊢ <;> omega
    · have hbeq : (a.id == i) = false := by simp [ha]
      simp only [hbeq, Bool.false_eq_true, if_false]
      split_ifs at hrec ⊢ <;>
        simp only [Nat.mul_one, Nat.mul_zero] at hrec ⊢ <;> omega

lemma countPri_writeRow (db : DB) (i r : Nat) (p : Option Nat)
    (old : RoutineItemRow) (h : uniqueRow db i old) (r' : Nat) (x : Option Nat) :
    countPri (writeRow db i r p) r' x
        + (if old.routine = r' ∧ old.priority = x then 1 else 0)
      = countPri db r' x + (if r = r' ∧ p = x then 1 else 0) := by
  obtain ⟨hmem, hid, hcount⟩ := h
  unfold writeRow
  rw [if_pos (any_id_of_mem hmem hid)]
  have := countPri_replaceRow db i r p old r' x (uniqueRow_eq db i old ⟨hmem, hid, hcount⟩)
  rw [hcount] at this
  simpa using this

lemma maxOpt_eq_none (l : List Nat) : maxOpt l = none ↔ l = [] := by
  cases l with
  | nil => simp [maxOpt]
  | cons q qs =>
    simp only [maxOpt]
    cases maxOpt qs <;> simp

lemma maxOpt_spec :
    ∀ (l : List Nat) (m : Nat), maxOpt l = some m ↔ (m ∈ l ∧ ∀ x ∈ l, x ≤ m) := by
  intro l
  induction l with
  | nil => intro m; simp [maxOpt]
  | cons q qs ih =>
    intro m
    cases hq : maxOpt qs with
    | none =>
      have he : qs = [] := (maxOpt_eq_none qs).mp hq
      subst he
      simp only [maxOpt]
      constructor
      · intro hm
        have : q = m := by simpa using hm
        subst this
        exact ⟨List.mem_singleton.mpr rfl, by intro x hx; simp at hx; omega⟩
      · intro ⟨hmem, hbound⟩
        have : m = q := by simpa using hmem
        simp [this]
    | some m' =>
      obtain ⟨hm'mem, hm'bound⟩ := (ih m').mp hq
      simp only [maxOpt, hq, Option.some_inj]
      constructor
      · intro hm
        constructor
        · rcases Nat.le_total q m' with hqm | hqm
          · have hmm : m = m' := by omega
            exact List.mem_cons_of_mem q (hmm ▸ hm'mem)
          · have hmq : m = q := by omega
            exact hmq ▸ List.mem_cons_self q qs
        · intro x hx
          rcases List.mem_cons.mp hx with h1 | h1
          · subst h1; omega
          · have := hm'bound x h1; omega
      · intro ⟨hmem, hbound⟩
        have h1 : q ≤ m := hbound q (List.mem_cons_self q qs)
        have h2 : m' ≤ m := hbound m' (List.mem_cons_of_mem q hm'mem)
        have h3 : m ≤ max q m' := by
          rcases List.mem_cons.mp hmem with hh | hh
          · subst hh; omega
          · have := hm'bound m hh; omega
        omega

lemma maxPriority_eq_maxOpt (db : DB) (r : Nat) :
    maxPriority db r = maxOpt ((prioList db r).filterMap id) := by
  unfold maxPriority prioList
  rw [List.filterMap_map]
  rfl

lemma targetPriorities_succ (n : Nat) :
    targetPriorities (n + 1) = targetPriorities n ++ [some (n + 1)] := by
  unfold targetPriorities
  rw [List.range_succ, List.map_append]
  rfl

lemma filterMap_targetPriorities (n : Nat) :
    (targetPriorities n).filterMap id = (List.range n).map (fun k => k + 1) := by
  induction n with
  | zero => rfl
  | succ k ih =>
    rw [targetPriorities_succ, List.filterMap_append, ih, List.range_succ,
      List.map_append]
    rfl

lemma maxPriority_of_dense (db : DB) (r n : Nat) (h : denseRoutine db r n) :
    maxPriority db r = if n = 0 then none else some n := by
  rw [maxPriority_eq_maxOpt]
  have hperm := List.Perm.filterMap id h
  rw [filterMap_targetPriorities] at hperm
  cases n with
  | zero =>
    simp only [List.range_zero, List.map_nil] at hperm
    rw [List.Perm.eq_nil hperm]
    simp [maxOpt]
  | succ k =>
    rw [if_neg (Nat.succ_ne_zero k)]
    rw [maxOpt_spec]
    constructor
    · rw [hperm.mem_iff]
      exact List.mem_map.mpr ⟨k, List.mem_range.mpr (Nat.lt_succ_self k), rfl⟩
    · intro x hx
      have := hperm.mem_iff.mp hx
      obtain ⟨j, hj, hjx⟩ := List.mem_map.mp this
      have := List.mem_range.mp hj
      omega

/-! ### Counting the target priority list -/

lemma count_targetPriorities_some (n q : Nat) :
    (targetPriorities n).count (some q) = if 1 ≤ q ∧ q ≤ n then 1 else 0 := by
  induction n with
  | zero =>
    have h0 : targetPriorities 0 = [] := rfl
    rw [h0, List.count_nil, if_neg (by omega)]
  | succ k ih =>
    rw [targetPriorities_succ, List.count_append, ih]
    have hsing : (List.count (some q) [some (k + 1)]) =
        if q = k + 1 then 1 else 0 := by
      by_cases hq : q = k + 1 <;> simp [List.count_cons, hq]
    rw [hsing]
    split_ifs <;> omega

lemma count_targetPriorities_none (n : Nat) :
    (targetPriorities n).count none = 0 := by
  rw [List.count_eq_zero]
  unfold targetPriorities
  intro h
  obtain ⟨k, _, hk⟩ := List.mem_map.mp h
  exact Option.noConfusion hk

lemma count_instances (l : List (Option Nat)) (x : Option Nat) :
    @List.count (Option Nat) instBEqOfDecidableEq x l = List.count x l := by
  induction l with
  | nil => rfl
  | cons b t ih =>
    rw [@List.count_cons (Option Nat) instBEqOfDecidableEq, List.count_cons, ih]
    by_cases hbx : b = x <;> simp [hbx]

lemma perm_iff_count_opt (l1 l2 : List (Option Nat)) :
    List.Perm l1 l2 ↔ ∀ x, l1.count x = l2.count x := by
  rw [List.perm_iff_count]
  constructor
  · intro h x
    have hx := h x
    rwa [count_instances, count_instances] at hx
  · intro h a
    rw [count_instances, count_instances]
    exact h a

/-- The density invariant, phrased through per-value counts. -/
lemma denseRoutine_iff_counts (db : DB) (r n : Nat) :
    denseRoutine db r n ↔
      (countPri db r none = 0 ∧
        ∀ q : Nat, countPri db r (some q) = if 1 ≤ q ∧ q ≤ n then 1 else 0) := by
  unfold denseRoutine countPri
  rw [perm_iff_count_opt]
  constructor
  · intro h
    exact ⟨by rw [h none, count_targetPriorities_none],
      fun q => by rw [h (some q), count_targetPriorities_some]⟩
  · intro ⟨h0, hs⟩ x
    cases x with
    | none => rw [h0, count_targetPriorities_none]
    | some q => rw [hs q, count_targetPriorities_some]

/-! ### More helpers -/

lemma countPri_eq_countP (db : DB) (r : Nat) (x : Option Nat) :
    countPri db r x = db.countP fun row => row.routine == r && row.priority == x := by
  induction db with
  | nil => rfl
  | cons a l ih =>
    rw [countPri_cons, ih, List.countP_cons]
    by_cases hr : a.routine = r <;> by_cases hx : a.priority = x <;>
      simp [hr, hx, Nat.add_comm]

lemma countP_two (l : List RoutineItemRow) (p : RoutineItemRow → Bool)
    (a b : RoutineItemRow) (ha : a ∈ l) (hb : b ∈ l) (hab : a ≠ b)
    (hpa : p a = true) (hpb : p b = true) : 2 ≤ l.countP p := by
  induction l with
  | nil => simp at ha
  | cons c t ih =>
    rw [List.countP_cons]
    rcases List.mem_cons.mp ha with hac | hat
    · subst hac
      have hbt : b ∈ t := by
        rcases List.mem_cons.mp hb with hbc | hbt
        · exact absurd hbc.symm hab
        · exact hbt
      have : 0 < t.countP p := List.countP_pos_iff.mpr ⟨b, hbt, hpb⟩
      rw [if_pos hpa]
      omega
    · rcases List.mem_cons.mp hb with hbc | hbt
      · subst hbc
        have : 0 < t.countP p := List.countP_pos_iff.mpr ⟨a, hat, hpa⟩
        rw [if_pos hpb]
        omega
      · have := ih hat hbt
        omega

lemma dense_mem_bound (db : DB) (r n : Nat) (h : denseRoutine db r n) :
    ∀ row ∈ db, row.routine = r → ∃ q, row.priority = some q ∧ 1 ≤ q ∧ q ≤ n := by
  intro row hrow hr
  obtain ⟨h0, hs⟩ := (denseRoutine_iff_counts db r n).mp h
  cases hp : row.priority with
  | none =>
    exfalso
    have : 0 < countPri db r none := by
      rw [countPri_eq_countP]
      exact List.countP_pos_iff.mpr ⟨row, hrow, by simp [hr, hp]⟩
    omega
  | some q =>
    refine ⟨q, rfl, ?_⟩
    have h1 : 0 < countPri db r (some q) := by
      rw [countPri_eq_countP]
      exact List.countP_pos_iff.mpr ⟨row, hrow, by simp [hr, hp]⟩
    have h2 := hs q
    by_cases hq : 1 ≤ q ∧ q ≤ n
    · exact hq
    · rw [if_neg hq] at h2; omega

lemma dense_unique_at (db : DB) (r n : Nat) (h : denseRoutine db r n)
    (row1 row2 : RoutineItemRow) (h1 : row1 ∈ db) (h2 : row2 ∈ db)
    (hne : row1 ≠ row2) (hr1 : row1.routine = r) (hr2 : row2.routine = r)
    (x : Nat) (hp1 : row1.priority = some x) : row2.priority ≠ some x := by
  intro hp2
  have hc := ((denseRoutine_iff_counts db r n).mp h).2 x
  have h2c : 2 ≤ countPri db r (some x) := by
    rw [countPri_eq_countP]
    exact countP_two db _ row1 row2 h1 h2 hne (by simp [hr1, hp1])
      (by simp [hr2, hp2])
  split_ifs at hc <;> omega

lemma incRow_id (row : RoutineItemRow) : (incRow row).id = row.id := rfl

lemma decRow_id (row : RoutineItemRow) : (decRow row).id = row.id := rfl

lemma uniqueRow_map (db : DB) (i : Nat) (old : RoutineItemRow)
    (F : RoutineItemRow → RoutineItemRow) (hu : uniqueRow db i old)
    (hF : ∀ row, (F row).id = row.id) : uniqueRow (db.map F) i (F old) := by
  obtain ⟨hmem, hid, hcount⟩ := hu
  refine ⟨List.mem_map_of_mem F hmem, (hF old).trans hid, ?_⟩
  rw [List.countP_map, ← hcount]
  apply List.countP_congr
  intro a _
  simp [Function.comp, hF]

lemma countPri_eraseRow :
    ∀ (db : DB) (i : Nat) (old : RoutineItemRow) (r' : Nat) (x : Option Nat),
      (∀ row ∈ db, row.id = i → row = old) →
      countPri (db.filter fun row => !(row.id == i)) r' x
          + (db.countP fun row => row.id == i)
            * (if old.routine = r' ∧ old.priority = x then 1 else 0)
        = countPri db r' x := by
  intro db
  induction db with
  | nil => intro i old r' x h; simp [countPri_nil]
  | cons a l ih =>
    intro i old r' x h
    have ha' := fun (row : RoutineItemRow) hrow => h row (List.mem_cons_of_mem a hrow)
    have hrec := ih i old r' x ha'
    rw [List.filter_cons, List.countP_cons, countPri_cons]
    by_cases ha : a.id = i
    · have hao : a = old := h a (List.mem_cons_self a l) ha
      subst hao
      have hbeq : (a.id == i) = true := by simp [ha]
      simp only [hbeq, Bool.not_true, Bool.false_eq_true, if_false, if_true]
      split_ifs at hrec ⊢ <;>
        simp only [Nat.mul_one, Nat.mul_zero] at hrec ⊢ <;> omega
    · have hbeq : (a.id == i) = false := by simp [ha]
      simp only [hbeq, Bool.not_false, Bool.false_eq_true, if_false, if_true,
        countPri_cons]
      split_ifs at hrec ⊢ <;>
        simp only [Nat.mul_one, Nat.mul_zero] at hrec ⊢ <;> omega

lemma countPri_shiftUpFrom_other (db : DB) (r p r' : Nat) (x : Option Nat)
    (h : r' ≠ r) : countPri (shiftUpFrom db r p) r' x = countPri db r' x := by
  induction db with
  | nil => rfl
  | cons row db ih =>
    rw [shiftUpFrom_cons]
    simp only [countPri_cons, ih]
    rcases hrp : row.priority with _ | q'
    · by_cases hr : row.routine = r <;> simp [hrp, hr, priGe, incRow, Ne.symm h]
    · by_cases hr : row.routine = r <;> by_cases hpq : p ≤ q' <;>
        simp [hrp, hr, hpq, priGe, incRow, Ne.symm h]

lemma countPri_shiftDownAfter_other (db : DB) (r p r' : Nat) (x : Option Nat)
    (h : r' ≠ r) : countPri (shiftDownAfter db r p) r' x = countPri db r' x := by
  induction db with
  | nil => rfl
  | cons row db ih =>
    rw [shiftDownAfter_cons]
    simp only [countPri_cons, ih]
    rcases hrp : row.priority with _ | q'
    · by_cases hr : row.routine = r <;> simp [hrp, hr, priGt, decRow, Ne.symm h]
    · by_cases hr : row.routine = r <;> by_cases hpq : p < q' <;>
        simp [hrp, hr, hpq, priGt, decRow, Ne.symm h]

lemma countPri_shiftUpRange_other (db : DB) (r a b r' : Nat) (x : Option Nat)
    (h : r' ≠ r) : countPri (shiftUpRange db r a b) r' x = countPri db r' x := by
  induction db with
  | nil => rfl
  | cons row db ih =>
    rw [shiftUpRange_cons]
    simp only [countPri_cons, ih]
    rcases hrp : row.priority with _ | q'
    · by_cases hr : row.routine = r <;>
        simp [hrp, hr, priGe, priLt, incRow, Ne.symm h]
    · by_cases hr : row.routine = r <;> by_cases ha : a ≤ q' <;>
        by_cases hb : q' < b <;>
        simp [hrp, hr, ha, hb, priGe, priLt, incRow, Ne.symm h]

lemma countPri_shiftDownRange_other (db : DB) (r a b r' : Nat) (x : Option Nat)
    (h : r' ≠ r) : countPri (shiftDownRange db r a b) r' x = countPri db r' x := by
  induction db with
  | nil => rfl
  | cons row db ih =>
    rw [shiftDownRange_cons]
    simp only [countPri_cons, ih]
    rcases hrp : row.priority with _ | q'
    · by_cases hr : row.routine = r <;>
        simp [hrp, hr, priGt, priLe, decRow, Ne.symm h]
    · by_cases hr : row.routine = r <;> by_cases ha : a < q' <;>
        by_cases hb : q' ≤ b <;>
        simp [hrp, hr, ha, hb, priGt, priLe, decRow, Ne.symm h]

lemma maxPriority_of_empty (db : DB) (r : Nat) (h : routineRows db r = []) :
    maxPriority db r = none := by
  unfold maxPriority
  have h' : (db.filter fun row => row.routine == r) = [] := h
  rw [h']
  rfl

lemma maxPriority_eq_some (db : DB) (r m : Nat) (old : RoutineItemRow)
    (hmem : old ∈ db) (hor : old.routine = r) (hop : old.priority = some m)
    (hub : ∀ row ∈ db, row.routine = r → priLe row.priority m = true) :
    maxPriority db r = some m := by
  unfold maxPriority
  rw [maxOpt_spec]
  constructor
  · exact List.mem_filterMap.mpr
      ⟨old, List.mem_filter.mpr ⟨hmem, by simp [hor]⟩, hop⟩
  · intro x hx
    obtain ⟨row, hrowf, hpri⟩ := List.mem_filterMap.mp hx
    obtain ⟨hrow, hrr⟩ := List.mem_filter.mp hrowf
    have hle := hub row hrow (by simpa using hrr)
    rw [hpri] at hle
    simpa [priLe] using hle

/-! ### Frame lemmas for untouched routines -/

lemma routineRows_map (db : DB) (F : RoutineItemRow → RoutineItemRow) (s : Nat)
    (h1 : ∀ row ∈ db, row.routine = s → F row = row)
    (h2 : ∀ row ∈ db, (F row).routine = s → F row = row) :
    routineRows (db.map F) s = routineRows db s := by
  induction db with
  | nil => rfl
  | cons a l ih =>
    have h1' := fun row hr => h1 row (List.mem_cons_of_mem a hr)
    have h2' := fun row hr => h2 row (List.mem_cons_of_mem a hr)
    have htail := ih h1' h2'
    show List.filter _ (List.map F (a :: l)) = List.filter _ (a :: l)
    rw [List.map_cons, List.filter_cons, List.filter_cons]
    by_cases ha : a.routine = s
    · have hFa : F a = a := h1 a (List.mem_cons_self a l) ha
      rw [hFa, if_pos (by simp [ha] : ((a.routine == s) = true))]
      rw [if_pos (by simp [ha] : ((a.routine == s) = true))]
      exact congrArg (List.cons a) htail
    · by_cases hFa : (F a).routine = s
      · have heq := h2 a (List.mem_cons_self a l) hFa
        rw [heq] at hFa
        exact absurd hFa ha
      · rw [if_neg (by simp [hFa]), if_neg (by simp [ha])]
        exact htail

lemma routineRows_append (db1 db2 : DB) (s : Nat) :
    routineRows (db1 ++ db2) s = routineRows db1 s ++ routineRows db2 s :=
  List.filter_append _ _

lemma routineRows_filter_id (db : DB) (i s : Nat)
    (h : ∀ row ∈ db, row.routine = s → row.id ≠ i) :
    routineRows (db.filter fun row => !(row.id == i)) s = routineRows db s := by
  induction db with
  | nil => rfl
  | cons a l ih =>
    have h' := fun row hr => h row (List.mem_cons_of_mem a hr)
    have htail := ih h'
    show List.filter _ (List.filter _ (a :: l)) = List.filter _ (a :: l)
    rw [List.filter_cons]
    by_cases hid : a.id = i
    · have has : a.routine ≠ s := fun hc => (h a (List.mem_cons_self a l) hc) hid
      rw [if_neg (by simp [hid]), List.filter_cons, if_neg (by simp [has])]
      exact htail
    · rw [if_pos (by simp [hid]), List.filter_cons, List.filter_cons]
      by_cases has : a.routine = s
      · rw [if_pos (by simp [has]), if_pos (by simp [has])]
        exact congrArg (List.cons a) htail
      · rw [if_neg (by simp [has]), if_neg (by simp [has])]
        exact htail

/-! ### Density preservation, one lemma per shift pattern -/

lemma dense_insertShift (db : DB) (r n p newId : Nat)
    (h : denseRoutine db r n) (hp1 : 1 ≤ p) (hp2 : p ≤ n + 1) :
    denseRoutine (shiftUpFrom db r p ++ [⟨newId, r, some p⟩]) r (n + 1) := by
  obtain ⟨h0, hs⟩ := (denseRoutine_iff_counts db r n).mp h
  rw [denseRoutine_iff_counts]
  constructor
  · rw [countPri_append, countPri_shiftUpFrom_none, h0, countPri_cons,
      countPri_nil]
    simp
  · intro q
    rw [countPri_append, countPri_shiftUpFrom, countPri_cons, countPri_nil]
    have h1 := hs q
    have h2 := hs (q - 1)
    simp only [Option.some.injEq, eq_self_iff_true, true_and]
    split_ifs at h1 h2 ⊢ <;> omega

lemma dense_append_end (db : DB) (r n newId : Nat) (h : denseRoutine db r n) :
    denseRoutine (db ++ [⟨newId, r, some (n + 1)⟩]) r (n + 1) := by
  obtain ⟨h0, hs⟩ := (denseRoutine_iff_counts db r n).mp h
  rw [denseRoutine_iff_counts]
  constructor
  · rw [countPri_append, h0, countPri_cons, countPri_nil]
    simp
  · intro q
    rw [countPri_append, countPri_cons, countPri_nil]
    have h1 := hs q
    simp only [Option.some.injEq, eq_self_iff_true, true_and]
    split_ifs at h1 ⊢ <;> omega

lemma dense_move_up (db : DB) (r n i np op : Nat) (old : RoutineItemRow)
    (h : denseRoutine db r n) (hu : uniqueRow db i old)
    (hor : old.routine = r) (hop : old.priority = some op)
    (hnp1 : 1 ≤ np) (hlt : np < op) :
    denseRoutine (writeRow (shiftUpRange db r np op) i r (some np)) r n := by
  obtain ⟨hq0, hs⟩ := (denseRoutine_iff_counts db r n).mp h
  obtain ⟨q0, hq0', hb1, hb2⟩ := dense_mem_bound db r n h old hu.1 hor
  rw [hop] at hq0'
  cases hq0'
  have hFold :
      (if old.routine == r && priGe old.priority np && priLt old.priority op
        then incRow old else old) = old := by
    simp [hop, priLt]
  have hidp : ∀ row : RoutineItemRow,
      ((if row.routine == r && priGe row.priority np && priLt row.priority op
        then incRow row else row)).id = row.id := by
    intro row
    split_ifs <;> rfl
  have hu' : uniqueRow (shiftUpRange db r np op) i old := by
    have hm := uniqueRow_map db i old _ hu hidp
    rw [hFold] at hm
    exact hm
  rw [denseRoutine_iff_counts]
  constructor
  · have hw := countPri_writeRow (shiftUpRange db r np op) i r (some np) old
      hu' r none
    rw [countPri_shiftUpRange_none, if_neg (by simp [hop]),
      if_neg (by simp)] at hw
    omega
  · intro q
    have hw := countPri_writeRow (shiftUpRange db r np op) i r (some np) old
      hu' r (some q)
    rw [countPri_shiftUpRange db r np op q hlt] at hw
    simp only [hor, hop, Option.some.injEq, eq_self_iff_true, true_and] at hw
    have hs1 := hs q
    have hs2 := hs (q - 1)
    have hs3 := hs op
    have hs4 := hs (op - 1)
    rcases (by omega :
        q < np ∨ q = np ∨ (np < q ∧ q < op) ∨ q = op ∨ op < q) with
      hreg | hreg | hreg | hreg | hreg
    · rw [if_neg (by omega : ¬op = q), if_pos hreg,
        if_neg (by omega : ¬np = q)] at hw
      split_ifs at hs1 ⊢ <;> omega
    · rw [if_neg (by omega : ¬op = q), if_neg (by omega : ¬q < np),
        if_pos hreg, if_pos (by omega : np = q)] at hw
      split_ifs <;> omega
    · rw [if_neg (by omega : ¬op = q), if_neg (by omega : ¬q < np),
        if_neg (by omega : ¬q = np), if_pos hreg.2,
        if_neg (by omega : ¬np = q)] at hw
      split_ifs at hs2 ⊢ <;> omega
    · rw [if_pos (by omega : op = q), if_neg (by omega : ¬q < np),
        if_neg (by omega : ¬q = np), if_neg (by omega : ¬q < op),
        if_pos (by omega : q = op), if_neg (by omega : ¬np = q)] at hw
      split_ifs at hs3 hs4 ⊢ <;> omega
    · rw [if_neg (by omega : ¬op = q), if_neg (by omega : ¬q < np),
        if_neg (by omega : ¬q = np), if_neg (by omega : ¬q < op),
        if_neg (by omega : ¬q = op), if_neg (by omega : ¬np = q)] at hw
      split_ifs at hs1 ⊢ <;> omega

lemma dense_move_down (db : DB) (r n i np op : Nat) (old : RoutineItemRow)
    (h : denseRoutine db r n) (hu : uniqueRow db i old)
    (hor : old.routine = r) (hop : old.priority = some op)
    (hnpn : np ≤ n) (hgt : op < np) :
    denseRoutine (writeRow (shiftDownRange db r op np) i r (some np)) r n := by
  obtain ⟨hq0, hs⟩ := (denseRoutine_iff_counts db r n).mp h
  obtain ⟨q0, hq0', hb1, hb2⟩ := dense_mem_bound db r n h old hu.1 hor
  rw [hop] at hq0'
  cases hq0'
  have hFold :
      (if old.routine == r && priGt old.priority op && priLe old.priority np
        then decRow old else old) = old := by
    simp [hop, priGt]
  have hidp : ∀ row : RoutineItemRow,
      ((if row.routine == r && priGt row.priority op && priLe row.priority np
        then decRow row else row)).id = row.id := by
    intro row
    split_ifs <;> rfl
  have hu' : uniqueRow (shiftDownRange db r op np) i old := by
    have hm := uniqueRow_map db i old _ hu hidp
    rw [hFold] at hm
    exact hm
  rw [denseRoutine_iff_counts]
  constructor
  · have hw := countPri_writeRow (shiftDownRange db r op np) i r (some np) old
      hu' r none
    rw [countPri_shiftDownRange_none, if_neg (by simp [hop]),
      if_neg (by simp)] at hw
    omega
  · intro q
    have hw := countPri_writeRow (shiftDownRange db r op np) i r (some np) old
      hu' r (some q)
    rw [countPri_shiftDownRange db r op np q hgt] at hw
    simp only [hor, hop, Option.some.injEq, eq_self_iff_true, true_and] at hw
    have hs1 := hs q
    have hs2 := hs (q + 1)
    have hs3 := hs op
    have hs4 := hs (op + 1)
    rcases (by omega :
        q < op ∨ q = op ∨ (op < q ∧ q < np) ∨ q = np ∨ np < q) with
      hreg | hreg | hreg | hreg | hreg
    · rw [if_neg (by omega : ¬op = q), if_pos hreg,
        if_neg (by omega : ¬np = q)] at hw
      split_ifs at hs1 ⊢ <;> omega
    · rw [if_pos (by omega : op = q), if_neg (by omega : ¬q < op),
        if_pos (by omega : q = op), if_neg (by omega : ¬np = q)] at hw
      split_ifs at hs3 hs4 ⊢ <;> omega
    · rw [if_neg (by omega : ¬op = q), if_neg (by omega : ¬q < op),
        if_neg (by omega : ¬q = op), if_pos hreg.2,
        if_neg (by omega : ¬np = q)] at hw
      split_ifs at hs2 ⊢ <;> omega
    · rw [if_neg (by omega : ¬op = q), if_neg (by omega : ¬q < op),
        if_neg (by omega : ¬q = op), if_neg (by omega : ¬q < np),
        if_pos (by omega : q = np), if_pos (by omega : np = q)] at hw
      split_ifs <;> omega
    · rw [if_neg (by omega : ¬op = q), if_neg (by omega : ¬q < op),
        if_neg (by omega : ¬q = op), if_neg (by omega : ¬q < np),
        if_neg (by omega : ¬q = np), if_neg (by omega : ¬np = q)] at hw
      split_ifs at hs1 ⊢ <;> omega

lemma dense_delete (db : DB) (r n i p : Nat) (old : RoutineItemRow)
    (h : denseRoutine db r n) (hu : uniqueRow db i old)
    (hor : old.routine = r) (hop : old.priority = some p) :
    denseRoutine (shiftDownAfter (db.filter fun row => !(row.id == i)) r p)
      r (n - 1) := by
  obtain ⟨hq0, hs⟩ := (denseRoutine_iff_counts db r n).mp h
  obtain ⟨q0, hq0', hb1, hb2⟩ := dense_mem_bound db r n h old hu.1 hor
  rw [hop] at hq0'
  cases hq0'
  have hpt := uniqueRow_eq db i old hu
  have hc1 := hu.2.2
  rw [denseRoutine_iff_counts]
  constructor
  · rw [countPri_shiftDownAfter_none]
    have he := countPri_eraseRow db i old r none hpt
    rw [hc1, one_mul, if_neg (by simp [hop])] at he
    omega
  · intro q
    rw [countPri_shiftDownAfter]
    have heA := countPri_eraseRow db i old r (some q) hpt
    have heB := countPri_eraseRow db i old r (some p) hpt
    have heC := countPri_eraseRow db i old r (some (p + 1)) hpt
    have heD := countPri_eraseRow db i old r (some (q + 1)) hpt
    rw [hc1, one_mul] at heA heB heC heD
    simp only [hor, hop, Option.some.injEq, eq_self_iff_true, true_and,
      if_true] at heA heB heC heD
    rw [if_neg (by omega : ¬p = p + 1)] at heC
    have hs1 := hs q
    have hs2 := hs p
    have hs3 := hs (p + 1)
    have hs4 := hs (q + 1)
    rcases (by omega : q < p ∨ q = p ∨ p < q) with hreg | hreg | hreg
    · rw [if_pos hreg]
      rw [if_neg (by omega : ¬p = q)] at heA
      split_ifs at hs1 ⊢ <;> omega
    · rw [if_neg (by omega : ¬q < p), if_pos hreg]
      split_ifs at hs2 hs3 ⊢ <;> omega
    · rw [if_neg (by omega : ¬q < p), if_neg (by omega : ¬q = p)]
      rw [if_neg (by omega : ¬p = q + 1)] at heD
      split_ifs at hs4 ⊢ <;> omega

lemma dense_other_transport (db : DB) (r1 p r2 n2 : Nat) (hne : r1 ≠ r2)
    (h2 : denseRoutine db r2 n2) :
    denseRoutine (shiftDownAfter db r1 p) r2 n2 := by
  rw [denseRoutine_iff_counts] at h2 ⊢
  refine ⟨?_, fun q => ?_⟩
  · rw [countPri_shiftDownAfter_other _ _ _ _ _ (Ne.symm hne)]
    exact h2.1
  · rw [countPri_shiftDownAfter_other _ _ _ _ _ (Ne.symm hne)]
    exact h2.2 q

lemma max_after_leave (db : DB) (r1 p r2 n2 : Nat) (hne : r1 ≠ r2)
    (h2 : denseRoutine db r2 n2) :
    (maxPriority (shiftDownAfter db r1 p) r2).getD 0 + 1 = n2 + 1 := by
  rw [maxPriority_of_dense _ _ _ (dense_other_transport db r1 p r2 n2 hne h2)]
  cases n2 <;> simp

lemma dense_leave_r1 (db : DB) (i r1 r2 n1 p : Nat) (pn : Nat)
    (old : RoutineItemRow) (h1 : denseRoutine db r1 n1)
    (hu : uniqueRow db i old) (hor : old.routine = r1)
    (hop : old.priority = some p) (hne : r1 ≠ r2) :
    denseRoutine (writeRow (shiftDownAfter db r1 p) i r2 (some pn))
      r1 (n1 - 1) := by
  obtain ⟨hq0, hs⟩ := (denseRoutine_iff_counts db r1 n1).mp h1
  obtain ⟨q0, hq0', hb1, hb2⟩ := dense_mem_bound db r1 n1 h1 old hu.1 hor
  rw [hop] at hq0'
  cases hq0'
  have hFold :
      (if old.routine == r1 && priGt old.priority p then decRow old else old) =
        old := by
    simp [hop, priGt]
  have hidp : ∀ row : RoutineItemRow,
      ((if row.routine == r1 && priGt row.priority p then decRow row
        else row)).id = row.id := by
    intro row
    split_ifs <;> rfl
  have hu' : uniqueRow (shiftDownAfter db r1 p) i old := by
    have hm := uniqueRow_map db i old _ hu hidp
    rw [hFold] at hm
    exact hm
  rw [denseRoutine_iff_counts]
  constructor
  · have hw := countPri_writeRow (shiftDownAfter db r1 p) i r2 (some pn) old
      hu' r1 none
    rw [countPri_shiftDownAfter_none, if_neg (by simp [hop]),
      if_neg (by simp)] at hw
    omega
  · intro q
    have hw := countPri_writeRow (shiftDownAfter db r1 p) i r2 (some pn) old
      hu' r1 (some q)
    rw [countPri_shiftDownAfter] at hw
    simp only [hor, hop, Option.some.injEq, eq_self_iff_true, true_and] at hw
    rw [if_neg (show ¬(r2 = r1 ∧ pn = q) by
      intro hc; exact hne hc.1.symm)] at hw
    have hs1 := hs q
    have hs2 := hs p
    have hs3 := hs (p + 1)
    have hs4 := hs (q + 1)
    rcases (by omega : q < p ∨ q = p ∨ p < q) with hreg | hreg | hreg
    · rw [if_neg (by omega : ¬p = q), if_pos hreg] at hw
      split_ifs at hs1 ⊢ <;> omega
    · rw [if_pos (by omega : p = q), if_neg (by omega : ¬q < p),
        if_pos (by omega : q = p)] at hw
      split_ifs at hs2 hs3 ⊢ <;> omega
    · rw [if_neg (by omega : ¬p = q), if_neg (by omega : ¬q < p),
        if_neg (by omega : ¬q = p)] at hw
      split_ifs at hs4 ⊢ <;> omega

lemma dense_arrive_r2_append (db : DB) (i r1 r2 n2 p : Nat)
    (old : RoutineItemRow) (h2 : denseRoutine db r2 n2)
    (hu : uniqueRow db i old) (hor : old.routine = r1)
    (hop : old.priority = some p) (hne : r1 ≠ r2) :
    denseRoutine (writeRow (shiftDownAfter db r1 p) i r2 (some (n2 + 1)))
      r2 (n2 + 1) := by
  obtain ⟨hq0, hs⟩ := (denseRoutine_iff_counts db r2 n2).mp h2
  have hFold :
      (if old.routine == r1 && priGt old.priority p then decRow old else old) =
        old := by
    simp [hop, priGt]
  have hidp : ∀ row : RoutineItemRow,
      ((if row.routine == r1 && priGt row.priority p then decRow row
        else row)).id = row.id := by
    intro row
    split_ifs <;> rfl
  have hu' : uniqueRow (shiftDownAfter db r1 p) i old := by
    have hm := uniqueRow_map db i old _ hu hidp
    rw [hFold] at hm
    exact hm
  rw [denseRoutine_iff_counts]
  constructor
  · have hw := countPri_writeRow (shiftDownAfter db r1 p) i r2
      (some (n2 + 1)) old hu' r2 none
    rw [countPri_shiftDownAfter_other _ _ _ _ _ (Ne.symm hne),
      if_neg (by intro hc; rw [hor] at hc; exact hne hc.1),
      if_neg (by simp)] at hw
    omega
  · intro q
    have hw := countPri_writeRow (shiftDownAfter db r1 p) i r2
      (some (n2 + 1)) old hu' r2 (some q)
    rw [countPri_shiftDownAfter_other _ _ _ _ _ (Ne.symm hne),
      if_neg (by intro hc; rw [hor] at hc; exact hne hc.1)] at hw
    simp only [Option.some.injEq, eq_self_iff_true, true_and] at hw
    have hs1 := hs q
    split_ifs at hw hs1 ⊢ <;> omega

lemma dense_cross_r1 (db : DB) (i r1 r2 n1 p p2 : Nat) (old : RoutineItemRow)
    (h1 : denseRoutine db r1 n1) (hu : uniqueRow db i old)
    (hor : old.routine = r1) (hop : old.priority = some p) (hne : r1 ≠ r2) :
    denseRoutine
      (writeRow (shiftUpFrom (shiftDownAfter db r1 p) r2 p2) i r2 (some p2))
      r1 (n1 - 1) := by
  obtain ⟨hq0, hs⟩ := (denseRoutine_iff_counts db r1 n1).mp h1
  obtain ⟨q0, hq0', hb1, hb2⟩ := dense_mem_bound db r1 n1 h1 old hu.1 hor
  rw [hop] at hq0'
  cases hq0'
  have hFold1 :
      (if old.routine == r1 && priGt old.priority p then decRow old else old) =
        old := by
    simp [hop, priGt]
  have hidp1 : ∀ row : RoutineItemRow,
      ((if row.routine == r1 && priGt row.priority p then decRow row
        else row)).id = row.id := by
    intro row
    split_ifs <;> rfl
  have hu1 : uniqueRow (shiftDownAfter db r1 p) i old := by
    have hm := uniqueRow_map db i old _ hu hidp1
    rw [hFold1] at hm
    exact hm
  have hFold2 :
      (if old.routine == r2 && priGe old.priority p2 then incRow old
        else old) = old := by
    simp [hor, hne]
  have hidp2 : ∀ row : RoutineItemRow,
      ((if row.routine == r2 && priGe row.priority p2 then incRow row
        else row)).id = row.id := by
    intro row
    split_ifs <;> rfl
  have hu2 : uniqueRow (shiftUpFrom (shiftDownAfter db r1 p) r2 p2) i old := by
    have hm := uniqueRow_map (shiftDownAfter db r1 p) i old _ hu1 hidp2
    rw [hFold2] at hm
    exact hm
  rw [denseRoutine_iff_counts]
  constructor
  · have hw := countPri_writeRow (shiftUpFrom (shiftDownAfter db r1 p) r2 p2)
      i r2 (some p2) old hu2 r1 none
    rw [countPri_shiftUpFrom_other _ _ _ _ _ hne,
      countPri_shiftDownAfter_none, if_neg (by simp [hop]),
      if_neg (by intro hc; exact hne hc.1.symm)] at hw
    omega
  · intro q
    have hw := countPri_writeRow (shiftUpFrom (shiftDownAfter db r1 p) r2 p2)
      i r2 (some p2) old hu2 r1 (some q)
    rw [countPri_shiftUpFrom_other _ _ _ _ _ hne,
      countPri_shiftDownAfter] at hw
    simp only [hor, hop, Option.some.injEq, eq_self_iff_true, true_and] at hw
    rw [if_neg (show ¬(r2 = r1 ∧ p2 = q) by
      intro hc; exact hne hc.1.symm)] at hw
    have hs1 := hs q
    have hs2 := hs p
    have hs3 := hs (p + 1)
    have hs4 := hs (q + 1)
    rcases (by omega : q < p ∨ q = p ∨ p < q) with hreg | hreg | hreg
    · rw [if_neg (by omega : ¬p = q), if_pos hreg] at hw
      split_ifs at hs1 ⊢ <;> omega
    · rw [if_pos (by omega : p = q), if_neg (by omega : ¬q < p),
        if_pos (by omega : q = p)] at hw
      split_ifs at hs2 hs3 ⊢ <;> omega
    · rw [if_neg (by omega : ¬p = q), if_neg (by omega : ¬q < p),
        if_neg (by omega : ¬q = p)] at hw
      split_ifs at hs4 ⊢ <;> omega

lemma dense_cross_r2 (db : DB) (i r1 r2 n2 p p2 : Nat) (old : RoutineItemRow)
    (h2 : denseRoutine db r2 n2) (hu : uniqueRow db i old)
    (hor : old.routine = r1) (hop : old.priority = some p) (hne : r1 ≠ r2)
    (hp21 : 1 ≤ p2) (hp22 : p2 ≤ n2 + 1) :
    denseRoutine
      (writeRow (shiftUpFrom (shiftDownAfter db r1 p) r2 p2) i r2 (some p2))
      r2 (n2 + 1) := by
  obtain ⟨hq0, hs⟩ := (denseRoutine_iff_counts db r2 n2).mp h2
  have hFold1 :
      (if old.routine == r1 && priGt old.priority p then decRow old else old) =
        old := by
    simp [hop, priGt]
  have hidp1 : ∀ row : RoutineItemRow,
      ((if row.routine == r1 && priGt row.priority p then decRow row
        else row)).id = row.id := by
    intro row
    split_ifs <;> rfl
  have hu1 : uniqueRow (shiftDownAfter db r1 p) i old := by
    have hm := uniqueRow_map db i old _ hu hidp1
    rw [hFold1] at hm
    exact hm
  have hFold2 :
      (if old.routine == r2 && priGe old.priority p2 then incRow old
        else old) = old := by
    simp [hor, hne]
  have hidp2 : ∀ row : RoutineItemRow,
      ((if row.routine == r2 && priGe row.priority p2 then incRow row
        else row)).id = row.id := by
    intro row
    split_ifs <;> rfl
  have hu2 : uniqueRow (shiftUpFrom (shiftDownAfter db r1 p) r2 p2) i old := by
    have hm := uniqueRow_map (shiftDownAfter db r1 p) i old _ hu1 hidp2
    rw [hFold2] at hm
    exact hm
  rw [denseRoutine_iff_counts]
  constructor
  · have hw := countPri_writeRow (shiftUpFrom (shiftDownAfter db r1 p) r2 p2)
      i r2 (some p2) old hu2 r2 none
    rw [countPri_shiftUpFrom_none,
      countPri_shiftDownAfter_other _ _ _ _ _ (Ne.symm hne),
      if_neg (by intro hc; rw [hor] at hc; exact hne hc.1),
      if_neg (by simp)] at hw
    omega
  · intro q
    have hw := countPri_writeRow (shiftUpFrom (shiftDownAfter db r1 p) r2 p2)
      i r2 (some p2) old hu2 r2 (some q)
    rw [countPri_shiftUpFrom,
      countPri_shiftDownAfter_other _ _ _ _ _ (Ne.symm hne),
      countPri_shiftDownAfter_other _ _ _ _ _ (Ne.symm hne),
      if_neg (by intro hc; rw [hor] at hc; exact hne hc.1)] at hw
    simp only [Option.some.injEq, eq_self_iff_true, true_and] at hw
    have hs1 := hs q
    have hs2 := hs (q - 1)
    rcases (by omega : q < p2 ∨ q = p2 ∨ p2 < q) with hreg | hreg | hreg
    · rw [if_pos hreg, if_neg (by omega : ¬p2 = q)] at hw
      split_ifs at hs1 ⊢ <;> omega
    · rw [if_neg (by omega : ¬q < p2), if_pos (by omega : q = p2),
        if_pos (by omega : p2 = q)] at hw
      split_ifs <;> omega
    · rw [if_neg (by omega : ¬q < p2), if_neg (by omega : ¬q = p2),
        if_neg (by omega : ¬p2 = q)] at hw
      split_ifs at hs2 ⊢ <;> omega

/-! ### Branch reduction lemmas for `save` and `delete` -/

lemma save_create_absent (db : DB) (newId r : Nat) :
    RoutineItem.save db none newId r none =
      some (db ++ [⟨newId, r, some ((maxPriority db r).getD 0 + 1)⟩]) := rfl

lemma save_create_explicit (db : DB) (newId r p : Nat) :
    RoutineItem.save db none newId r (some p) =
      some (shiftUpFrom db r p ++ [⟨newId, r, some p⟩]) := rfl

lemma save_fallback (db : DB) (i newId r : Nat) (p : Option Nat)
    (hf : findRow db i = none) :
    RoutineItem.save db (some i) newId r p = some (writeRow db i r p) := by
  unfold RoutineItem.save
  dsimp only
  rw [hf]

lemma save_same_keep (db : DB) (i newId r : Nat) (p : Option Nat)
    (old : RoutineItemRow) (hf : findRow db i = some old)
    (hor : old.routine = r) (hop : old.priority = p) :
    RoutineItem.save db (some i) newId r p = some (writeRow db i r p) := by
  unfold RoutineItem.save
  dsimp only
  rw [hf]
  dsimp only
  rw [if_neg (fun hc => hc hor), if_neg (fun hc => hc hop)]

lemma save_same_up (db : DB) (i newId r np op : Nat) (old : RoutineItemRow)
    (hf : findRow db i = some old) (hor : old.routine = r)
    (hop : old.priority = some op) (hlt : np < op) :
    RoutineItem.save db (some i) newId r (some np) =
      some (writeRow (shiftUpRange db r np op) i r (some np)) := by
  unfold RoutineItem.save
  dsimp only
  rw [hf]
  dsimp only
  rw [if_neg (fun hc => hc hor),
    if_pos (show old.priority ≠ some np by rw [hop]; simp; omega), hop]
  dsimp only
  rw [if_pos hlt]

lemma save_same_down (db : DB) (i newId r np op : Nat) (old : RoutineItemRow)
    (hf : findRow db i = some old) (hor : old.routine = r)
    (hop : old.priority = some op) (hgt : op < np) :
    RoutineItem.save db (some i) newId r (some np) =
      some (writeRow (shiftDownRange db r op np) i r (some np)) := by
  unfold RoutineItem.save
  dsimp only
  rw [hf]
  dsimp only
  rw [if_neg (fun hc => hc hor),
    if_pos (show old.priority ≠ some np by rw [hop]; simp; omega), hop]
  dsimp only
  rw [if_neg (by omega : ¬np < op)]

lemma save_same_absent (db : DB) (i newId r n op : Nat) (old : RoutineItemRow)
    (hf : findRow db i = some old) (hor : old.routine = r)
    (hop : old.priority = some op)
    (hmax : (maxPriority db r).getD 0 + 1 = n + 1) (hople : op ≤ n) :
    RoutineItem.save db (some i) newId r none =
      some (writeRow (shiftDownRange db r op (n + 1)) i r (some (n + 1))) := by
  unfold RoutineItem.save
  dsimp only
  rw [hf]
  dsimp only
  rw [if_neg (fun hc => hc hor),
    if_pos (show old.priority ≠ none by rw [hop]; simp), hop]
  dsimp only
  rw [hmax]
  rw [if_neg (by omega : ¬n + 1 < op)]

lemma save_cross_absent (db : DB) (i newId r1 r2 p : Nat)
    (old : RoutineItemRow) (hf : findRow db i = some old)
    (hor : old.routine = r1) (hop : old.priority = some p) (hne : r1 ≠ r2) :
    RoutineItem.save db (some i) newId r2 none =
      some (writeRow (shiftDownAfter db r1 p) i r2
        (some ((maxPriority (shiftDownAfter db r1 p) r2).getD 0 + 1))) := by
  unfold RoutineItem.save
  dsimp only
  rw [hf]
  dsimp only
  rw [if_pos (show old.routine ≠ r2 by rw [hor]; exact hne), hop, hor]

lemma save_cross_explicit (db : DB) (i newId r1 r2 p p2 : Nat)
    (old : RoutineItemRow) (hf : findRow db i = some old)
    (hor : old.routine = r1) (hop : old.priority = some p) (hne : r1 ≠ r2) :
    RoutineItem.save db (some i) newId r2 (some p2) =
      some (writeRow (shiftUpFrom (shiftDownAfter db r1 p) r2 p2) i r2
        (some p2)) := by
  unfold RoutineItem.save
  dsimp only
  rw [hf]
  dsimp only
  rw [if_pos (show old.routine ≠ r2 by rw [hor]; exact hne), hop, hor]

lemma delete_eq (db : DB) (self : RoutineItemRow) (p : Nat)
    (hp : self.priority = some p) :
    RoutineItem.delete db self =
      some (shiftDownAfter (db.filter fun row => !(row.id == self.id))
        self.routine p) := by
  unfold RoutineItem.delete
  rw [hp]

/-! ### `writeRow` as a map -/

lemma writeRow_map_eq (db : DB) (i : Nat) (old : RoutineItemRow)
    (hu : uniqueRow db i old) (F : RoutineItemRow → RoutineItemRow)
    (hidF : ∀ row, (F row).id = row.id) (r : Nat) (p : Option Nat) :
    writeRow (db.map F) i r p =
      db.map fun row => if row.id = i then ⟨i, r, p⟩ else F row := by
  unfold writeRow
  rw [if_pos (List.any_eq_true.mpr
    ⟨F old, List.mem_map_of_mem F hu.1, by simp [hidF, hu.2.1]⟩)]
  rw [List.map_map]
  apply List.map_congr_left
  intro a _
  by_cases ha : a.id = i
  · simp [Function.comp, hidF, ha]
  · simp [Function.comp, hidF, ha]

lemma writeRow_self (db : DB) (i : Nat) (old : RoutineItemRow)
    (hu : uniqueRow db i old) (r : Nat) (p : Option Nat)
    (hor : old.routine = r) (hop : old.priority = p) :
    writeRow db i r p = db := by
  unfold writeRow
  rw [if_pos (any_id_of_mem hu.1 hu.2.1)]
  have hpt : ∀ a ∈ db,
      (if a.id == i then (⟨i, r, p⟩ : RoutineItemRow) else a) = a := by
    intro a ha
    by_cases h : a.id = i
    · have hae := uniqueRow_eq db i old hu a ha h
      subst hae
      rw [if_pos (by simp [h])]
      calc (⟨i, r, p⟩ : RoutineItemRow)
          = ⟨a.id, a.routine, a.priority⟩ := by rw [hu.2.1, hor, hop]
        _ = a := rfl
    · rw [if_neg (by simp [h])]
  rw [List.map_congr_left hpt]
  exact List.map_id db

lemma count_single (x y : Option Nat) :
    List.count x [y] = if y = x then 1 else 0 := by
  by_cases h : y = x <;> simp [List.count_cons, h]

/-- Moving an item of a dense routine to the end slot `n + 1` (the behaviour
of a same-routine update with absent priority) leaves the priorities
`{1, …, n - 1} ∪ {n + 1}`. -/
lemma perm_move_to_end (db : DB) (r n i p0 : Nat) (old : RoutineItemRow)
    (h : denseRoutine db r n) (hu : uniqueRow db i old)
    (hor : old.routine = r) (hop : old.priority = some p0) :
    List.Perm
      (prioList
        (writeRow (shiftDownRange db r p0 (n + 1)) i r (some (n + 1))) r)
      (targetPriorities (n - 1) ++ [some (n + 1)]) := by
  obtain ⟨hq0, hs⟩ := (denseRoutine_iff_counts db r n).mp h
  obtain ⟨q0, hq0', hb1, hb2⟩ := dense_mem_bound db r n h old hu.1 hor
  rw [hop] at hq0'
  cases hq0'
  have hgt : p0 < n + 1 := by omega
  have hFold :
      (if old.routine == r && priGt old.priority p0 &&
          priLe old.priority (n + 1) then decRow old else old) = old := by
    simp [hop, priGt]
  have hidp : ∀ row : RoutineItemRow,
      ((if row.routine == r && priGt row.priority p0 &&
          priLe row.priority (n + 1) then decRow row else row)).id =
        row.id := by
    intro row
    split_ifs <;> rfl
  have hu' : uniqueRow (shiftDownRange db r p0 (n + 1)) i old := by
    have hm := uniqueRow_map db i old _ hu hidp
    rw [hFold] at hm
    exact hm
  rw [perm_iff_count_opt]
  intro x
  rw [List.count_append]
  show countPri (writeRow (shiftDownRange db r p0 (n + 1)) i r
    (some (n + 1))) r x = _
  cases x with
  | none =>
    have hw := countPri_writeRow (shiftDownRange db r p0 (n + 1)) i r
      (some (n + 1)) old hu' r none
    rw [countPri_shiftDownRange_none, if_neg (by simp [hop]),
      if_neg (by simp)] at hw
    rw [count_targetPriorities_none, count_single, if_neg (by simp)]
    omega
  | some q =>
    have hw := countPri_writeRow (shiftDownRange db r p0 (n + 1)) i r
      (some (n + 1)) old hu' r (some q)
    rw [countPri_shiftDownRange db r p0 (n + 1) q hgt] at hw
    simp only [hor, hop, Option.some.injEq, eq_self_iff_true, true_and] at hw
    rw [count_targetPriorities_some, count_single]
    simp only [Option.some.injEq]
    have hs1 := hs q
    have hs2 := hs (q + 1)
    have hs3 := hs p0
    have hs4 := hs (p0 + 1)
    rcases (by omega :
        q < p0 ∨ q = p0 ∨ (p0 < q ∧ q < n + 1) ∨ q = n + 1 ∨ n + 1 < q) with
      hreg | hreg | hreg | hreg | hreg
    · rw [if_neg (by omega : ¬p0 = q), if_pos hreg,
        if_neg (by omega : ¬n + 1 = q)] at hw
      rw [if_neg (by omega : ¬n + 1 = q)]
      split_ifs at hs1 ⊢ <;> omega
    · rw [if_pos (by omega : p0 = q), if_neg (by omega : ¬q < p0),
        if_pos (by omega : q = p0), if_neg (by omega : ¬n + 1 = q)] at hw
      rw [if_neg (by omega : ¬n + 1 = q)]
      split_ifs at hs3 hs4 ⊢ <;> omega
    · rw [if_neg (by omega : ¬p0 = q), if_neg (by omega : ¬q < p0),
        if_neg (by omega : ¬q = p0), if_pos hreg.2,
        if_neg (by omega : ¬n + 1 = q)] at hw
      rw [if_neg (by omega : ¬n + 1 = q)]
      split_ifs at hs2 ⊢ <;> omega
    · rw [if_neg (by omega : ¬p0 = q), if_neg (by omega : ¬q < p0),
        if_neg (by omega : ¬q = p0), if_neg (by omega : ¬q < n + 1),
        if_pos (by omega : q = n + 1), if_pos (by omega : n + 1 = q)] at hw
      rw [if_pos (by omega : n + 1 = q), if_neg (by omega : ¬(1 ≤ q ∧ q ≤ n - 1))]
      omega
    · rw [if_neg (by omega : ¬p0 = q), if_neg (by omega : ¬q < p0),
        if_neg (by omega : ¬q = p0), if_neg (by omega : ¬q < n + 1),
        if_neg (by omega : ¬q = n + 1), if_neg (by omega : ¬n + 1 = q)] at hw
      rw [if_neg (by omega : ¬n + 1 = q)]
      split_ifs at hs1 ⊢ <;> omega

lemma shiftF_id_up (r p : Nat) : ∀ row : RoutineItemRow,
    ((if row.routine == r && priGe row.priority p then incRow row
      else row)).id = row.id := by
  intro row
  split_ifs <;> rfl

lemma shiftF_id_down (r p : Nat) : ∀ row : RoutineItemRow,
    ((if row.routine == r && priGt row.priority p then decRow row
      else row)).id = row.id := by
  intro row
  split_ifs <;> rfl

lemma shiftF_id_upRange (r a b : Nat) : ∀ row : RoutineItemRow,
    ((if row.routine == r && priGe row.priority a && priLt row.priority b
      then incRow row else row)).id = row.id := by
  intro row
  split_ifs <;> rfl

lemma shiftF_id_downRange (r a b : Nat) : ∀ row : RoutineItemRow,
    ((if row.routine == r && priGt row.priority a && priLe row.priority b
      then decRow row else row)).id = row.id := by
  intro row
  split_ifs <;> rfl

/-! ### The claims -/

/-- Claim C8: updating an item whose primary key matches no persisted row
falls back to a plain row write of the caller-supplied fields: the row is
written as-is, every other row of the table is left untouched, and no error
is raised. -/
theorem save_inconsistent_snapshot_fallback (db : DB) (i newId r : Nat)
    (p : Option Nat) (h : findRow db i = none) :
    RoutineItem.save db (some i) newId r p = some (db ++ [⟨i, r, p⟩]) := by
  rw [save_fallback db i newId r p h]
  have hnone : ∀ row ∈ db, ¬(row.id == i) = true := List.find?_eq_none.mp h
  unfold writeRow
  rw [if_neg (fun hc => by
    obtain ⟨row, hrow, hpr⟩ := List.any_eq_true.mp hc
    exact hnone row hrow hpr)]

theorem save_inconsistent_snapshot_fallback_witness :
    findRow [⟨1, 1, some 1⟩] 2 = none ∧
      RoutineItem.save [⟨1, 1, some 1⟩] (some 2) 0 3 (some 5) =
        some ([⟨1, 1, some 1⟩] ++ [⟨2, 3, some 5⟩]) :=
  ⟨by decide,
    save_inconsistent_snapshot_fallback [⟨1, 1, some 1⟩] 2 0 3 (some 5)
      (by decide)⟩

/-- Claim C2: creating an item in a densely ordered routine with an explicit
priority `P`, `1 ≤ P ≤ N`, stores the new item at `P`, increments every
sibling formerly at priority `≥ P` by one, leaves rows below `P` and rows of
other routines unchanged, and the routine is again dense on `1..N+1`. -/
theorem create_explicit_insert_shifts (db : DB) (r n p newId : Nat)
    (h : denseRoutine db r n) (hp1 : 1 ≤ p) (hpn : p ≤ n) :
    ∃ db2, RoutineItem.save db none newId r (some p) = some db2 ∧
      db2 = (db.map fun row =>
          match row.priority with
          | some q =>
            if row.routine = r ∧ p ≤ q then
              { row with priority := some (q + 1) }
            else row
          | none => row) ++ [⟨newId, r, some p⟩] ∧
      denseRoutine db2 r (n + 1) := by
  refine ⟨shiftUpFrom db r p ++ [⟨newId, r, some p⟩],
    save_create_explicit db newId r p, ?_,
    dense_insertShift db r n p newId h hp1 (by omega)⟩
  congr 1
  unfold shiftUpFrom
  apply List.map_congr_left
  intro a _
  rcases hrp : a.priority with _ | q
  · simp [hrp, priGe]
  · by_cases hr : a.routine = r <;> by_cases hpq : p ≤ q <;>
      simp [hrp, hr, hpq, priGe, incRow]

theorem create_explicit_insert_shifts_witness :
    denseRoutine [⟨1, 1, some 1⟩, ⟨2, 1, some 2⟩] 1 2 ∧
      (∃ db2,
        RoutineItem.save [⟨1, 1, some 1⟩, ⟨2, 1, some 2⟩] none 3 1 (some 1) =
          some db2 ∧
        db2 = (([⟨1, 1, some 1⟩, ⟨2, 1, some 2⟩] : DB).map fun row =>
            match row.priority with
            | some q =>
              if row.routine = 1 ∧ 1 ≤ q then
                { row with priority := some (q + 1) }
              else row
            | none => row) ++ [⟨3, 1, some 1⟩] ∧
        denseRoutine db2 1 3) :=
  ⟨by decide,
    create_explicit_insert_shifts [⟨1, 1, some 1⟩, ⟨2, 1, some 2⟩] 1 2 1 3
      (by decide) (by decide) (by decide)⟩

/-- Claim C3: creating an item with no explicit priority appends it — the new
row gets priority 1 when the routine has no rows, and `m + 1` when `m` is the
largest stored priority; no existing row changes. -/
theorem create_absent_appends (db : DB) (r newId : Nat) :
    (routineRows db r = [] →
      RoutineItem.save db none newId r none =
        some (db ++ [⟨newId, r, some 1⟩])) ∧
    (∀ (m : Nat) (old : RoutineItemRow), old ∈ db → old.routine = r →
      old.priority = some m →
      (∀ row ∈ db, row.routine = r → priLe row.priority m = true) →
      RoutineItem.save db none newId r none =
        some (db ++ [⟨newId, r, some (m + 1)⟩])) := by
  constructor
  · intro he
    rw [save_create_absent, maxPriority_of_empty db r he]
    rfl
  · intro m old hmem hor hop hub
    rw [save_create_absent, maxPriority_eq_some db r m old hmem hor hop hub]
    rfl

theorem create_absent_appends_witness :
    (⟨2, 1, some 2⟩ : RoutineItemRow) ∈
        [⟨1, 1, some 1⟩, ⟨2, 1, some 2⟩, ⟨3, 2, some 7⟩] ∧
      RoutineItem.save [⟨1, 1, some 1⟩, ⟨2, 1, some 2⟩, ⟨3, 2, some 7⟩]
          none 4 1 none =
        some ([⟨1, 1, some 1⟩, ⟨2, 1, some 2⟩, ⟨3, 2, some 7⟩] ++
          [⟨4, 1, some 3⟩]) :=
  ⟨by decide,
    (create_absent_appends [⟨1, 1, some 1⟩, ⟨2, 1, some 2⟩, ⟨3, 2, some 7⟩]
        1 4).2 2 ⟨2, 1, some 2⟩ (by decide) (by decide) (by decide)
      (by decide)⟩

/-- Claim C4: a same-routine update with an explicit changed priority shifts
exactly the block between the two positions — `[new, old)` up by one when
moving toward the front, `(old, new]` down by one when moving toward the
back — and writes the moved row at the new priority; when the new priority
equals the old one, no shift happens and the row is written as-is. -/
theorem update_same_routine_shift_ranges (db : DB) (i newId r np op : Nat)
    (old : RoutineItemRow) (hu : uniqueRow db i old) (hor : old.routine = r)
    (hop : old.priority = some op) :
    (np < op →
      RoutineItem.save db (some i) newId r (some np) =
        some (db.map fun row =>
          if row.id = i then ⟨i, r, some np⟩
          else
            match row.priority with
            | some q =>
              if row.routine = r ∧ np ≤ q ∧ q < op then
                { row with priority := some (q + 1) }
              else row
            | none => row)) ∧
    (op < np →
      RoutineItem.save db (some i) newId r (some np) =
        some (db.map fun row =>
          if row.id = i then ⟨i, r, some np⟩
          else
            match row.priority with
            | some q =>
              if row.routine = r ∧ op < q ∧ q ≤ np then
                { row with priority := some (q - 1) }
              else row
            | none => row)) ∧
    RoutineItem.save db (some i) newId r (some op) = some db := by
  have hf := findRow_of_uniqueRow db i old hu
  refine ⟨?_, ?_, ?_⟩
  · intro hlt
    rw [save_same_up db i newId r np op old hf hor hop hlt]
    congr 1
    unfold shiftUpRange
    rw [writeRow_map_eq db i old hu _ (shiftF_id_upRange r np op) r (some np)]
    apply List.map_congr_left
    intro a _
    by_cases haid : a.id = i
    · rw [if_pos haid, if_pos haid]
    · rw [if_neg haid, if_neg haid]
      rcases hrp : a.priority with _ | q
      · simp [hrp, priGe, priLt]
      · by_cases hr2 : a.routine = r <;> by_cases h1 : np ≤ q <;>
          by_cases h2 : q < op <;>
          simp [hrp, hr2, h1, h2, priGe, priLt, incRow]
  · intro hgt
    rw [save_same_down db i newId r np op old hf hor hop hgt]
    congr 1
    unfold shiftDownRange
    rw [writeRow_map_eq db i old hu _ (shiftF_id_downRange r op np) r (some np)]
    apply List.map_congr_left
    intro a _
    by_cases haid : a.id = i
    · rw [if_pos haid, if_pos haid]
    · rw [if_neg haid, if_neg haid]
      rcases hrp : a.priority with _ | q
      · simp [hrp, priGt, priLe]
      · by_cases hr2 : a.routine = r <;> by_cases h1 : op < q <;>
          by_cases h2 : q ≤ np <;>
          simp [hrp, hr2, h1, h2, priGt, priLe, decRow]
  · rw [save_same_keep db i newId r (some op) old hf hor hop,
      writeRow_self db i old hu r (some op) hor hop]

theorem update_same_routine_shift_ranges_witness :
    uniqueRow [⟨1, 1, some 1⟩, ⟨2, 1, some 2⟩, ⟨3, 1, some 3⟩] 3
        ⟨3, 1, some 3⟩ ∧
      RoutineItem.save [⟨1, 1, some 1⟩, ⟨2, 1, some 2⟩, ⟨3, 1, some 3⟩]
          (some 3) 0 1 (some 1) =
        some (([⟨1, 1, some 1⟩, ⟨2, 1, some 2⟩, ⟨3, 1, some 3⟩] : DB).map fun row =>
          if row.id = 3 then ⟨3, 1, some 1⟩
          else
            match row.priority with
            | some q =>
              if row.routine = 1 ∧ 1 ≤ q ∧ q < 3 then
                { row with priority := some (q + 1) }
              else row
            | none => row) :=
  ⟨by decide,
    (update_same_routine_shift_ranges
        [⟨1, 1, some 1⟩, ⟨2, 1, some 2⟩, ⟨3, 1, some 3⟩] 3 0 1 1 3
        ⟨3, 1, some 3⟩ (by decide) (by decide) (by decide)).1 (by decide)⟩

/-- Claim C7: deleting the item at priority `p` of a densely ordered routine
removes that row and decrements by one every remaining sibling at a priority
greater than `p`; siblings below `p` and the row order are untouched, and the
routine is again dense on `1..N-1`. -/
theorem delete_compacts (db : DB) (i r n p : Nat) (old : RoutineItemRow)
    (hu : uniqueRow db i old) (hor : old.routine = r)
    (hop : old.priority = some p) (h : denseRoutine db r n) :
    ∃ db2, RoutineItem.delete db old = some db2 ∧
      db2 = ((db.filter fun row => !(row.id == i)).map fun row =>
        match row.priority with
        | some q =>
          if row.routine = r ∧ p < q then { row with priority := some (q - 1) }
          else row
        | none => row) ∧
      denseRoutine db2 r (n - 1) := by
  refine ⟨shiftDownAfter (db.filter fun row => !(row.id == old.id))
      old.routine p, delete_eq db old p hop, ?_, ?_⟩
  · rw [hu.2.1, hor]
    unfold shiftDownAfter
    apply List.map_congr_left
    intro a _
    rcases hrp : a.priority with _ | q
    · simp [hrp, priGt]
    · by_cases hr2 : a.routine = r <;> by_cases h1 : p < q <;>
        simp [hrp, hr2, h1, priGt, decRow]
  · rw [hu.2.1, hor]
    exact dense_delete db r n i p old h hu hor hop

theorem delete_compacts_witness :
    uniqueRow [⟨1, 1, some 1⟩, ⟨2, 1, some 2⟩, ⟨3, 1, some 3⟩] 2
        ⟨2, 1, some 2⟩ ∧
      (∃ db2,
        RoutineItem.delete [⟨1, 1, some 1⟩, ⟨2, 1, some 2⟩, ⟨3, 1, some 3⟩]
            ⟨2, 1, some 2⟩ = some db2 ∧
        db2 = ((([⟨1, 1, some 1⟩, ⟨2, 1, some 2⟩, ⟨3, 1, some 3⟩] : DB).filter
            fun row => !(row.id == 2)).map fun row =>
          match row.priority with
          | some q =>
            if row.routine = 1 ∧ 2 < q then
              { row with priority := some (q - 1) }
            else row
          | none => row) ∧
        denseRoutine db2 1 2) :=
  ⟨by decide,
    delete_compacts [⟨1, 1, some 1⟩, ⟨2, 1, some 2⟩, ⟨3, 1, some 3⟩] 2 1 3 2
      ⟨2, 1, some 2⟩ (by decide) (by decide) (by decide) (by decide)⟩

/-- Claim C9: updating an item of a dense routine with `N ≥ 2` items to an
absent priority, without changing its routine, assigns it one plus the
maximum priority over all items including itself — that is `N + 1` —
decrements every item formerly after its old slot, and leaves the routine's
priorities `{1, …, N-1, N+1}` with slot `N` vacant. -/
theorem update_absent_moves_past_end (db : DB) (i newId r n p0 : Nat)
    (old : RoutineItemRow) (h : denseRoutine db r n) (hu : uniqueRow db i old)
    (hor : old.routine = r) (hop : old.priority = some p0) (hn : 2 ≤ n) :
    ∃ db2, RoutineItem.save db (some i) newId r none = some db2 ∧
      db2 = (db.map fun row =>
        if row.id = i then ⟨i, r, some (n + 1)⟩
        else
          match row.priority with
          | some q =>
            if row.routine = r ∧ p0 < q then
              { row with priority := some (q - 1) }
            else row
          | none => row) ∧
      List.Perm (prioList db2 r) (targetPriorities (n - 1) ++ [some (n + 1)]) := by
  have hf := findRow_of_uniqueRow db i old hu
  obtain ⟨q0, hq0', hb1, hb2⟩ := dense_mem_bound db r n h old hu.1 hor
  rw [hop] at hq0'
  cases hq0'
  have hmax : (maxPriority db r).getD 0 + 1 = n + 1 := by
    rw [maxPriority_of_dense db r n h, if_neg (by omega)]
    rfl
  refine ⟨writeRow (shiftDownRange db r p0 (n + 1)) i r (some (n + 1)),
    save_same_absent db i newId r n p0 old hf hor hop hmax hb2, ?_,
    perm_move_to_end db r n i p0 old h hu hor hop⟩
  unfold shiftDownRange
  rw [writeRow_map_eq db i old hu _ (shiftF_id_downRange r p0 (n + 1)) r
    (some (n + 1))]
  apply List.map_congr_left
  intro a ha
  by_cases haid : a.id = i
  · rw [if_pos haid, if_pos haid]
  · rw [if_neg haid, if_neg haid]
    rcases hrp : a.priority with _ | q
    · simp [hrp, priGt, priLe]
    · by_cases hr2 : a.routine = r
      · obtain ⟨q', hq', hbq1, hbq2⟩ := dense_mem_bound db r n h a ha hr2
        rw [hrp] at hq'
        cases hq'
        by_cases h1 : p0 < q <;>
          simp [hrp, hr2, h1, priGt, priLe, decRow,
            (show q ≤ n + 1 by omega)]
      · simp [hrp, hr2, priGt, priLe]

theorem update_absent_moves_past_end_witness :
    denseRoutine [⟨1, 1, some 1⟩, ⟨2, 1, some 2⟩] 1 2 ∧
      (∃ db2,
        RoutineItem.save [⟨1, 1, some 1⟩, ⟨2, 1, some 2⟩] (some 1) 0 1 none =
          some db2 ∧
        db2 = (([⟨1, 1, some 1⟩, ⟨2, 1, some 2⟩] : DB).map fun row =>
          if row.id = 1 then ⟨1, 1, some 3⟩
          else
            match row.priority with
            | some q =>
              if row.routine = 1 ∧ 1 < q then
                { row with priority := some (q - 1) }
              else row
            | none => row) ∧
        List.Perm (prioList db2 1) (targetPriorities 1 ++ [some 3])) :=
  ⟨by decide,
    update_absent_moves_past_end [⟨1, 1, some 1⟩, ⟨2, 1, some 2⟩] 1 0 1 2 1
      ⟨1, 1, some 1⟩ (by decide) (by decide) (by decide) (by decide)
      (by decide)⟩

lemma roundtrip_row_front (i r A B : Nat) (a : RoutineItemRow)
    (haid : ¬a.id = i) (hnoA : a.routine = r → a.priority ≠ some A) :
    ((fun row => if row.routine == r && priGt row.priority B &&
        priLe row.priority A then decRow row else row)
      ((fun row => if row.id = i then (⟨i, r, some B⟩ : RoutineItemRow)
        else if row.routine == r && priGe row.priority B &&
            priLt row.priority A then incRow row else row) a)) = a := by
  simp only [haid, if_false]
  rcases hrp : a.priority with _ | q
  · rw [if_neg (show ¬(a.routine == r && priGe none B &&
        priLt none A) = true by simp [priGe])]
    rw [if_neg (show ¬(a.routine == r && priGt a.priority B &&
        priLe a.priority A) = true by simp [hrp, priGt])]
  · by_cases hr2 : a.routine = r
    · have hqA : q ≠ A := fun hc => hnoA hr2 (by rw [hrp, hc])
      by_cases hc1 : B ≤ q ∧ q < A
      · rw [if_pos (show (a.routine == r && priGe (some q) B &&
            priLt (some q) A) = true by
          simp [hr2, priGe, priLt, hc1.1, hc1.2])]
        have hinc : incRow a = ⟨a.id, a.routine, some (q + 1)⟩ := by
          simp [incRow, hrp]
        rw [hinc]
        rw [if_pos (show ((⟨a.id, a.routine, some (q + 1)⟩ :
            RoutineItemRow).routine == r && priGt (some (q + 1)) B &&
            priLe (some (q + 1)) A) = true by
          simp [hr2, priGt, priLe] <;> omega)]
        show (⟨a.id, a.routine, some (q + 1 - 1)⟩ : RoutineItemRow) = a
        rw [(show q + 1 - 1 = q from rfl), ← hrp]
      · rw [if_neg (show ¬(a.routine == r && priGe (some q) B &&
            priLt (some q) A) = true by
          simp [hr2, priGe, priLt]; omega)]
        rw [if_neg (show ¬(a.routine == r && priGt a.priority B &&
            priLe a.priority A) = true by
          simp [hr2, hrp, priGt, priLe]; omega)]
    · rw [if_neg (show ¬(a.routine == r && priGe (some q) B &&
          priLt (some q) A) = true by simp [hr2])]
      rw [if_neg (show ¬(a.routine == r && priGt a.priority B &&
          priLe a.priority A) = true by simp [hr2])]

lemma roundtrip_row_back (i r A B : Nat) (a : RoutineItemRow)
    (haid : ¬a.id = i) (hnoA : a.routine = r → a.priority ≠ some A) :
    ((fun row => if row.routine == r && priGe row.priority A &&
        priLt row.priority B then incRow row else row)
      ((fun row => if row.id = i then (⟨i, r, some B⟩ : RoutineItemRow)
        else if row.routine == r && priGt row.priority A &&
            priLe row.priority B then decRow row else row) a)) = a := by
  simp only [haid, if_false]
  rcases hrp : a.priority with _ | q
  · rw [if_neg (show ¬(a.routine == r && priGt none A &&
        priLe none B) = true by simp [priGt])]
    rw [if_neg (show ¬(a.routine == r && priGe a.priority A &&
        priLt a.priority B) = true by simp [hrp, priGe])]
  · by_cases hr2 : a.routine = r
    · have hqA : q ≠ A := fun hc => hnoA hr2 (by rw [hrp, hc])
      by_cases hc1 : A < q ∧ q ≤ B
      · rw [if_pos (show (a.routine == r && priGt (some q) A &&
            priLe (some q) B) = true by
          simp [hr2, priGt, priLe, hc1.1, hc1.2])]
        have hdec : decRow a = ⟨a.id, a.routine, some (q - 1)⟩ := by
          simp [decRow, hrp]
        rw [hdec]
        rw [if_pos (show ((⟨a.id, a.routine, some (q - 1)⟩ :
            RoutineItemRow).routine == r && priGe (some (q - 1)) A &&
            priLt (some (q - 1)) B) = true by
          simp [hr2, priGe, priLt] <;> omega)]
        show (⟨a.id, a.routine, some (q - 1 + 1)⟩ : RoutineItemRow) = a
        rw [(show q - 1 + 1 = q by omega), ← hrp]
      · rw [if_neg (show ¬(a.routine == r && priGt (some q) A &&
            priLe (some q) B) = true by
          simp [hr2, priGt, priLe]; omega)]
        rw [if_neg (show ¬(a.routine == r && priGe a.priority A &&
            priLt a.priority B) = true by
          simp [hr2, hrp, priGe, priLt]; omega)]
    · rw [if_neg (show ¬(a.routine == r && priGt (some q) A &&
          priLe (some q) B) = true by simp [hr2])]
      rw [if_neg (show ¬(a.routine == r && priGe a.priority A &&
          priLt a.priority B) = true by simp [hr2])]

/-- Claim C5: within a densely ordered routine, moving the item at priority
`A` to priority `B` (`A ≠ B`, both in `1..N`) and then moving it back from
`B` to `A` restores the database exactly as it was. -/
theorem move_round_trip (db : DB) (i newId r n A B : Nat)
    (old : RoutineItemRow) (h : denseRoutine db r n) (hu : uniqueRow db i old)
    (hor : old.routine = r) (hop : old.priority = some A)
    (hA1 : 1 ≤ A) (hAn : A ≤ n) (hB1 : 1 ≤ B) (hBn : B ≤ n) (hAB : A ≠ B) :
    ∃ db1, RoutineItem.save db (some i) newId r (some B) = some db1 ∧
      RoutineItem.save db1 (some i) newId r (some A) = some db := by
  have hf := findRow_of_uniqueRow db i old hu
  have hnoA : ∀ a ∈ db, a.id ≠ i → a.routine = r → a.priority ≠ some A := by
    intro a ha haid har
    exact dense_unique_at db r n h old a hu.1 ha
      (fun he => haid (he ▸ hu.2.1)) hor har A hop
  have holdeta : (⟨i, r, some A⟩ : RoutineItemRow) = old := by
    rw [← hu.2.1, ← hor, ← hop]
  rcases Nat.lt_or_ge B A with hBA | hge
  · -- moving toward the front and back again
    refine ⟨writeRow (shiftUpRange db r B A) i r (some B),
      save_same_up db i newId r B A old hf hor hop hBA, ?_⟩
    rw [show writeRow (shiftUpRange db r B A) i r (some B) =
        db.map (fun row => if row.id = i then ⟨i, r, some B⟩
          else if row.routine == r && priGe row.priority B &&
              priLt row.priority A then incRow row else row) from by
      unfold shiftUpRange
      rw [writeRow_map_eq db i old hu _ (shiftF_id_upRange r B A) r (some B)]]
    have hidG : ∀ row : RoutineItemRow,
        ((fun row => if row.id = i then (⟨i, r, some B⟩ : RoutineItemRow)
          else if row.routine == r && priGe row.priority B &&
              priLt row.priority A then incRow row else row) row).id =
          row.id := by
      intro row
      by_cases hh : row.id = i
      · simp [hh]
      · simp only [hh, if_false]
        exact shiftF_id_upRange r B A row
    have hu1 := uniqueRow_map db i old _ hu hidG
    rw [if_pos hu.2.1] at hu1
    have hf1 := findRow_of_uniqueRow _ i _ hu1
    rw [save_same_down _ i newId r A B ⟨i, r, some B⟩ hf1 rfl rfl hBA]
    congr 1
    unfold shiftDownRange
    rw [List.map_map]
    simp only [Function.comp_def]
    rw [writeRow_map_eq db i old hu _
      (fun row => (shiftF_id_downRange r B A _).trans (hidG row)) r (some A)]
    have hptw : ∀ a ∈ db,
        (if a.id = i then (⟨i, r, some A⟩ : RoutineItemRow)
          else (fun row => if row.routine == r && priGt row.priority B &&
              priLe row.priority A then decRow row else row)
            ((fun row => if row.id = i then (⟨i, r, some B⟩ : RoutineItemRow)
              else if row.routine == r && priGe row.priority B &&
                  priLt row.priority A then incRow row else row) a)) = a := by
      intro a ha
      by_cases haid : a.id = i
      · rw [if_pos haid]
        have hae := uniqueRow_eq db i old hu a ha haid
        rw [hae]
        exact holdeta
      · rw [if_neg haid]
        exact roundtrip_row_front i r A B a haid
          (fun hr2 => hnoA a ha haid hr2)
    rw [List.map_congr_left hptw]
    exact List.map_id db
  · have hAB' : A < B := by omega
    refine ⟨writeRow (shiftDownRange db r A B) i r (some B),
      save_same_down db i newId r B A old hf hor hop hAB', ?_⟩
    rw [show writeRow (shiftDownRange db r A B) i r (some B) =
        db.map (fun row => if row.id = i then ⟨i, r, some B⟩
          else if row.routine == r && priGt row.priority A &&
              priLe row.priority B then decRow row else row) from by
      unfold shiftDownRange
      rw [writeRow_map_eq db i old hu _ (shiftF_id_downRange r A B) r (some B)]]
    have hidG : ∀ row : RoutineItemRow,
        ((fun row => if row.id = i then (⟨i, r, some B⟩ : RoutineItemRow)
          else if row.routine == r && priGt row.priority A &&
              priLe row.priority B then decRow row else row) row).id =
          row.id := by
      intro row
      by_cases hh : row.id = i
      · simp [hh]
      · simp only [hh, if_false]
        exact shiftF_id_downRange r A B row
    have hu1 := uniqueRow_map db i old _ hu hidG
    rw [if_pos hu.2.1] at hu1
    have hf1 := findRow_of_uniqueRow _ i _ hu1
    rw [save_same_up _ i newId r A B ⟨i, r, some B⟩ hf1 rfl rfl hAB']
    congr 1
    unfold shiftUpRange
    rw [List.map_map]
    simp only [Function.comp_def]
    rw [writeRow_map_eq db i old hu _
      (fun row => (shiftF_id_upRange r A B _).trans (hidG row)) r (some A)]
    have hptw : ∀ a ∈ db,
        (if a.id = i then (⟨i, r, some A⟩ : RoutineItemRow)
          else (fun row => if row.routine == r && priGe row.priority A &&
              priLt row.priority B then incRow row else row)
            ((fun row => if row.id = i then (⟨i, r, some B⟩ : RoutineItemRow)
              else if row.routine == r && priGt row.priority A &&
                  priLe row.priority B then decRow row else row) a)) = a := by
      intro a ha
      by_cases haid : a.id = i
      · rw [if_pos haid]
        have hae := uniqueRow_eq db i old hu a ha haid
        rw [hae]
        exact holdeta
      · rw [if_neg haid]
        exact roundtrip_row_back i r A B a haid
          (fun hr2 => hnoA a ha haid hr2)
    rw [List.map_congr_left hptw]
    exact List.map_id db

theorem move_round_trip_witness :
    denseRoutine [⟨1, 1, some 1⟩, ⟨2, 1, some 2⟩, ⟨3, 1, some 3⟩,
        ⟨4, 1, some 4⟩] 1 4 ∧
      (∃ db1,
        RoutineItem.save [⟨1, 1, some 1⟩, ⟨2, 1, some 2⟩, ⟨3, 1, some 3⟩,
            ⟨4, 1, some 4⟩] (some 3) 0 1 (some 1) = some db1 ∧
        RoutineItem.save db1 (some 3) 0 1 (some 3) =
          some [⟨1, 1, some 1⟩, ⟨2, 1, some 2⟩, ⟨3, 1, some 3⟩,
            ⟨4, 1, some 4⟩]) :=
  ⟨by decide,
    move_round_trip [⟨1, 1, some 1⟩, ⟨2, 1, some 2⟩, ⟨3, 1, some 3⟩,
        ⟨4, 1, some 4⟩] 3 0 1 4 3 1 ⟨3, 1, some 3⟩ (by decide) (by decide)
      (by decide) (by decide) (by decide) (by decide) (by decide) (by decide)
      (by decide)⟩

/-- Claim C6: moving an item at priority `p` from routine `R1` (dense
`1..N1`) to routine `R2` (dense `1..N2`) decrements every `R1` row past `p`,
leaving `R1` dense on `1..N1-1`; the item is placed in `R2` by the insert
rule — appended at `N2 + 1` when no priority is supplied, otherwise every
`R2` row at priority `≥ new` is incremented and the item stored at `new`
(dense `1..N2+1` when `new` is in range). -/
theorem cross_routine_move (db : DB) (i newId r1 r2 n1 n2 p : Nat)
    (old : RoutineItemRow) (hu : uniqueRow db i old) (hor : old.routine = r1)
    (hop : old.priority = some p) (h1 : denseRoutine db r1 n1)
    (h2 : denseRoutine db r2 n2) (hne : r1 ≠ r2) :
    (∃ db2, RoutineItem.save db (some i) newId r2 none = some db2 ∧
      db2 = (db.map fun row =>
        if row.id = i then ⟨i, r2, some (n2 + 1)⟩
        else
          match row.priority with
          | some q =>
            if row.routine = r1 ∧ p < q then
              { row with priority := some (q - 1) }
            else row
          | none => row) ∧
      denseRoutine db2 r1 (n1 - 1) ∧ denseRoutine db2 r2 (n2 + 1)) ∧
    (∀ p2 : Nat,
      ∃ db2, RoutineItem.save db (some i) newId r2 (some p2) = some db2 ∧
        db2 = (db.map fun row =>
          if row.id = i then ⟨i, r2, some p2⟩
          else
            match row.priority with
            | some q =>
              if row.routine = r1 ∧ p < q then
                { row with priority := some (q - 1) }
              else if row.routine = r2 ∧ p2 ≤ q then
                { row with priority := some (q + 1) }
              else row
            | none => row) ∧
        denseRoutine db2 r1 (n1 - 1) ∧
        (1 ≤ p2 → p2 ≤ n2 + 1 → denseRoutine db2 r2 (n2 + 1))) := by
  have hf := findRow_of_uniqueRow db i old hu
  constructor
  · have hsave := save_cross_absent db i newId r1 r2 p old hf hor hop hne
    rw [show (maxPriority (shiftDownAfter db r1 p) r2).getD 0 + 1 = n2 + 1
      from max_after_leave db r1 p r2 n2 hne h2] at hsave
    refine ⟨writeRow (shiftDownAfter db r1 p) i r2 (some (n2 + 1)), hsave,
      ?_, dense_leave_r1 db i r1 r2 n1 p (n2 + 1) old h1 hu hor hop hne,
      dense_arrive_r2_append db i r1 r2 n2 p old h2 hu hor hop hne⟩
    unfold shiftDownAfter
    rw [writeRow_map_eq db i old hu _ (shiftF_id_down r1 p) r2
      (some (n2 + 1))]
    apply List.map_congr_left
    intro a _
    by_cases haid : a.id = i
    · rw [if_pos haid, if_pos haid]
    · rw [if_neg haid, if_neg haid]
      rcases hrp : a.priority with _ | q
      · simp [hrp, priGt]
      · by_cases hr3 : a.routine = r1 <;> by_cases hq : p < q <;>
          simp [hrp, hr3, hq, priGt, decRow]
  · intro p2
    refine ⟨writeRow (shiftUpFrom (shiftDownAfter db r1 p) r2 p2) i r2
        (some p2),
      save_cross_explicit db i newId r1 r2 p p2 old hf hor hop hne, ?_,
      dense_cross_r1 db i r1 r2 n1 p p2 old h1 hu hor hop hne,
      fun hp21 hp22 =>
        dense_cross_r2 db i r1 r2 n2 p p2 old h2 hu hor hop hne hp21 hp22⟩
    unfold shiftUpFrom shiftDownAfter
    rw [List.map_map]
    simp only [Function.comp_def]
    rw [writeRow_map_eq db i old hu _
      (fun row => (shiftF_id_up r2 p2 _).trans (shiftF_id_down r1 p row))
      r2 (some p2)]
    apply List.map_congr_left
    intro a _
    by_cases haid : a.id = i
    · rw [if_pos haid, if_pos haid]
    · rw [if_neg haid, if_neg haid]
      rcases hrp : a.priority with _ | q
      · simp [hrp, priGt, priGe]
      · by_cases hr3 : a.routine = r1
        · have hr4 : a.routine ≠ r2 := by rw [hr3]; exact hne
          by_cases hq : p < q
          · rw [if_pos (show (a.routine == r1 && priGt (some q) p) = true by
              simp [hr3, priGt, hq])]
            have hdec : decRow a = ⟨a.id, a.routine, some (q - 1)⟩ := by
              simp [decRow, hrp]
            rw [hdec]
            rw [if_neg (show ¬((⟨a.id, a.routine, some (q - 1)⟩ :
                RoutineItemRow).routine == r2 && priGe (some (q - 1)) p2) =
                true by simp [hr4])]
            simp [hrp, hr3, hq, Ne.symm hne]
          · rw [if_neg (show ¬(a.routine == r1 && priGt (some q) p) = true by
              simp [hr3, priGt, hq])]
            rw [if_neg (show ¬(a.routine == r2 && priGe a.priority p2) =
                true by simp [hr4])]
            simp [hrp, hr3, hq, hr4, hne]
        · rw [if_neg (show ¬(a.routine == r1 && priGt (some q) p) = true by
            simp [hr3])]
          by_cases hr5 : a.routine = r2
          · by_cases hq2 : p2 ≤ q
            · rw [if_pos (show (a.routine == r2 && priGe a.priority p2) =
                  true by simp [hr5, hrp, priGe, hq2])]
              simp [hrp, hr3, hr5, hq2, incRow, Ne.symm hne]
            · rw [if_neg (show ¬(a.routine == r2 && priGe a.priority p2) =
                  true by simp [hr5, hrp, priGe, hq2])]
              simp [hrp, hr3, hr5, hq2, Ne.symm hne]
          · rw [if_neg (show ¬(a.routine == r2 && priGe a.priority p2) =
                true by simp [hr5])]
            simp [hrp, hr3, hr5, Ne.symm hne]

theorem cross_routine_move_witness :
    uniqueRow [⟨1, 1, some 1⟩, ⟨2, 1, some 2⟩, ⟨3, 2, some 1⟩] 1
        ⟨1, 1, some 1⟩ ∧
      denseRoutine [⟨1, 1, some 1⟩, ⟨2, 1, some 2⟩, ⟨3, 2, some 1⟩] 1 2 ∧
      denseRoutine [⟨1, 1, some 1⟩, ⟨2, 1, some 2⟩, ⟨3, 2, some 1⟩] 2 1 ∧
      (∃ db2,
        RoutineItem.save [⟨1, 1, some 1⟩, ⟨2, 1, some 2⟩, ⟨3, 2, some 1⟩]
            (some 1) 0 2 none = some db2 ∧
        db2 = (([⟨1, 1, some 1⟩, ⟨2, 1, some 2⟩, ⟨3, 2, some 1⟩] : DB).map
          fun row =>
            if row.id = 1 then ⟨1, 2, some 2⟩
            else
              match row.priority with
              | some q =>
                if row.routine = 1 ∧ 1 < q then
                  { row with priority := some (q - 1) }
                else row
              | none => row) ∧
        denseRoutine db2 1 1 ∧ denseRoutine db2 2 2) :=
  ⟨by decide, by decide, by decide,
    (cross_routine_move [⟨1, 1, some 1⟩, ⟨2, 1, some 2⟩, ⟨3, 2, some 1⟩]
        1 0 1 2 2 1 1 ⟨1, 1, some 1⟩ (by decide) (by decide) (by decide)
        (by decide) (by decide) (by decide)).1⟩

/-- Claim C1 as stated is false: in a dense one-item routine, updating the
item's priority to absent re-assigns priority `max + 1 = 2` (the maximum is
taken over all rows including the item itself), so the priorities become
`{2}`, not `{1, …, count} = {1}`. -/
theorem dense_invariant_counterexample :
    denseRoutine [⟨1, 1, some 1⟩] 1 1 ∧
      RoutineItem.save [⟨1, 1, some 1⟩] (some 1) 0 1 none =
        some [⟨1, 1, some 2⟩] ∧
      ¬denseRoutine [⟨1, 1, some 2⟩] 1 1 := by decide

/-- Claim C1 (amended): the dense-ordering invariant is preserved by every
create with absent priority, every create with explicit priority in
`1..count+1`, every same-routine update with explicit priority in
`1..count`, every cross-routine move with absent priority or explicit
priority in `1..target count + 1` (both routines stay dense), and every
delete — but not by a same-routine update whose priority is set to absent. -/
theorem dense_invariant_all_ops :
    (∀ (db : DB) (r n newId : Nat), denseRoutine db r n →
      ∃ db2, RoutineItem.save db none newId r none = some db2 ∧
        denseRoutine db2 r (n + 1)) ∧
    (∀ (db : DB) (r n newId p : Nat), denseRoutine db r n → 1 ≤ p →
        p ≤ n + 1 →
      ∃ db2, RoutineItem.save db none newId r (some p) = some db2 ∧
        denseRoutine db2 r (n + 1)) ∧
    (∀ (db : DB) (r n i newId np op : Nat) (old : RoutineItemRow),
        denseRoutine db r n → uniqueRow db i old → old.routine = r →
        old.priority = some op → 1 ≤ np → np ≤ n →
      ∃ db2, RoutineItem.save db (some i) newId r (some np) = some db2 ∧
        denseRoutine db2 r n) ∧
    (∀ (db : DB) (i newId r1 r2 n1 n2 p : Nat) (old : RoutineItemRow),
        denseRoutine db r1 n1 → denseRoutine db r2 n2 → uniqueRow db i old →
        old.routine = r1 → old.priority = some p → r1 ≠ r2 →
      ∃ db2, RoutineItem.save db (some i) newId r2 none = some db2 ∧
        denseRoutine db2 r1 (n1 - 1) ∧ denseRoutine db2 r2 (n2 + 1)) ∧
    (∀ (db : DB) (i newId r1 r2 n1 n2 p p2 : Nat) (old : RoutineItemRow),
        denseRoutine db r1 n1 → denseRoutine db r2 n2 → uniqueRow db i old →
        old.routine = r1 → old.priority = some p → r1 ≠ r2 → 1 ≤ p2 →
        p2 ≤ n2 + 1 →
      ∃ db2, RoutineItem.save db (some i) newId r2 (some p2) = some db2 ∧
        denseRoutine db2 r1 (n1 - 1) ∧ denseRoutine db2 r2 (n2 + 1)) ∧
    (∀ (db : DB) (r n p : Nat) (old : RoutineItemRow),
        denseRoutine db r n → uniqueRow db old.id old → old.routine = r →
        old.priority = some p →
      ∃ db2, RoutineItem.delete db old = some db2 ∧
        denseRoutine db2 r (n - 1)) := by
  refine ⟨?_, ?_, ?_, ?_, ?_, ?_⟩
  · intro db r n newId hd
    have hmax : (maxPriority db r).getD 0 + 1 = n + 1 := by
      rw [maxPriority_of_dense db r n hd]
      split_ifs with h0 <;> simp [h0]
    refine ⟨db ++ [⟨newId, r, some ((maxPriority db r).getD 0 + 1)⟩],
      save_create_absent db newId r, ?_⟩
    rw [hmax]
    exact dense_append_end db r n newId hd
  · intro db r n newId p hd hp1 hp2
    exact ⟨shiftUpFrom db r p ++ [⟨newId, r, some p⟩],
      save_create_explicit db newId r p, dense_insertShift db r n p newId hd hp1 hp2⟩
  · intro db r n i newId np op old hd hu hor hop hnp1 hnpn
    have hf := findRow_of_uniqueRow db i old hu
    rcases Nat.lt_trichotomy np op with hlt | heq | hgt
    · exact ⟨writeRow (shiftUpRange db r np op) i r (some np),
        save_same_up db i newId r np op old hf hor hop hlt,
        dense_move_up db r n i np op old hd hu hor hop hnp1 hlt⟩
    · refine ⟨db, ?_, hd⟩
      rw [save_same_keep db i newId r (some np) old hf hor
        (by rw [hop, heq]), writeRow_self db i old hu r (some np) hor
        (by rw [hop, heq])]
    · exact ⟨writeRow (shiftDownRange db r op np) i r (some np),
        save_same_down db i newId r np op old hf hor hop hgt,
        dense_move_down db r n i np op old hd hu hor hop hnpn hgt⟩
  · intro db i newId r1 r2 n1 n2 p old hd1 hd2 hu hor hop hne
    have hf := findRow_of_uniqueRow db i old hu
    have hsave := save_cross_absent db i newId r1 r2 p old hf hor hop hne
    rw [show (maxPriority (shiftDownAfter db r1 p) r2).getD 0 + 1 = n2 + 1
      from max_after_leave db r1 p r2 n2 hne hd2] at hsave
    exact ⟨writeRow (shiftDownAfter db r1 p) i r2 (some (n2 + 1)), hsave,
      dense_leave_r1 db i r1 r2 n1 p (n2 + 1) old hd1 hu hor hop hne,
      dense_arrive_r2_append db i r1 r2 n2 p old hd2 hu hor hop hne⟩
  · intro db i newId r1 r2 n1 n2 p p2 old hd1 hd2 hu hor hop hne hp21 hp22
    have hf := findRow_of_uniqueRow db i old hu
    exact ⟨writeRow (shiftUpFrom (shiftDownAfter db r1 p) r2 p2) i r2
        (some p2),
      save_cross_explicit db i newId r1 r2 p p2 old hf hor hop hne,
      dense_cross_r1 db i r1 r2 n1 p p2 old hd1 hu hor hop hne,
      dense_cross_r2 db i r1 r2 n2 p p2 old hd2 hu hor hop hne hp21 hp22⟩
  · intro db r n p old hd hu hor hop
    refine ⟨shiftDownAfter (db.filter fun row => !(row.id == old.id))
        old.routine p, delete_eq db old p hop, ?_⟩
    rw [hor]
    exact dense_delete db r n old.id p old hd hu hor hop

theorem dense_invariant_all_ops_witness :
    denseRoutine [⟨1, 1, some 1⟩] 1 1 ∧
      ∃ db2, RoutineItem.save [⟨1, 1, some 1⟩] none 2 1 none = some db2 ∧
        denseRoutine db2 1 2 :=
  ⟨by decide, dense_invariant_all_ops.1 [⟨1, 1, some 1⟩] 1 1 2 (by decide)⟩

lemma shiftF_routine_up (r p : Nat) : ∀ row : RoutineItemRow,
    ((if row.routine == r && priGe row.priority p then incRow row
      else row)).routine = row.routine := by
  intro row
  split_ifs <;> rfl

lemma shiftF_routine_down (r p : Nat) : ∀ row : RoutineItemRow,
    ((if row.routine == r && priGt row.priority p then decRow row
      else row)).routine = row.routine := by
  intro row
  split_ifs <;> rfl

lemma shiftF_routine_upRange (r a b : Nat) : ∀ row : RoutineItemRow,
    ((if row.routine == r && priGe row.priority a && priLt row.priority b
      then incRow row else row)).routine = row.routine := by
  intro row
  split_ifs <;> rfl

lemma shiftF_routine_downRange (r a b : Nat) : ∀ row : RoutineItemRow,
    ((if row.routine == r && priGt row.priority a && priLe row.priority b
      then decRow row else row)).routine = row.routine := by
  intro row
  split_ifs <;> rfl

lemma save_same_explicit_none_old (db : DB) (i newId r np : Nat)
    (old : RoutineItemRow) (hf : findRow db i = some old)
    (hor : old.routine = r) (hop : old.priority = none) :
    RoutineItem.save db (some i) newId r (some np) = none := by
  unfold RoutineItem.save
  dsimp only
  rw [hf]
  dsimp only
  rw [if_neg (fun hc => hc hor),
    if_pos (show old.priority ≠ some np by rw [hop]; simp), hop]

lemma save_cross_none_old (db : DB) (i newId r2 : Nat) (p : Option Nat)
    (old : RoutineItemRow) (hf : findRow db i = some old)
    (hne : old.routine ≠ r2) (hop : old.priority = none) :
    RoutineItem.save db (some i) newId r2 p = none := by
  unfold RoutineItem.save
  dsimp only
  rw [hf]
  dsimp only
  rw [if_pos hne, hop]

lemma delete_none (db : DB) (self : RoutineItemRow)
    (hp : self.priority = none) : RoutineItem.delete db self = none := by
  unfold RoutineItem.delete
  rw [hp]

lemma save_same_absent_raw (db : DB) (i newId r op : Nat)
    (old : RoutineItemRow) (hf : findRow db i = some old)
    (hor : old.routine = r) (hop : old.priority = some op) :
    RoutineItem.save db (some i) newId r none =
      (if (maxPriority db r).getD 0 + 1 < op then
        some (writeRow
          (shiftUpRange db r ((maxPriority db r).getD 0 + 1) op) i r
          (some ((maxPriority db r).getD 0 + 1)))
      else
        some (writeRow
          (shiftDownRange db r op ((maxPriority db r).getD 0 + 1)) i r
          (some ((maxPriority db r).getD 0 + 1)))) := by
  unfold RoutineItem.save
  dsimp only
  rw [hf]
  dsimp only
  rw [if_neg (fun hc => hc hor),
    if_pos (show old.priority ≠ none by rw [hop]; simp), hop]

lemma routineRows_writeRow_shift (db : DB) (i r : Nat) (pw : Option Nat)
    (old : RoutineItemRow) (hu : uniqueRow db i old)
    (F : RoutineItemRow → RoutineItemRow)
    (hidF : ∀ row, (F row).id = row.id)
    (hrF : ∀ row, (F row).routine = row.routine)
    (s : Nat) (hs : s ≠ r) (hsold : old.routine ≠ s)
    (hFs : ∀ row ∈ db, row.routine = s → F row = row) :
    routineRows (writeRow (db.map F) i r pw) s = routineRows db s := by
  rw [writeRow_map_eq db i old hu F hidF r pw]
  apply routineRows_map
  · intro row hrow hrs
    rw [if_neg (fun hc : row.id = i => by
      have := uniqueRow_eq db i old hu row hrow hc
      exact hsold (by rw [← this, hrs]))]
    exact hFs row hrow hrs
  · intro row hrow hFr
    by_cases hc : row.id = i
    · rw [if_pos hc] at hFr ⊢
      exact absurd hFr.symm hs
    · rw [if_neg hc] at hFr ⊢
      exact hFs row hrow ((hrF row).symm.trans hFr)

lemma routineRows_writeRow (db : DB) (i r : Nat) (pw : Option Nat)
    (old : RoutineItemRow) (hu : uniqueRow db i old)
    (s : Nat) (hs : s ≠ r) (hsold : old.routine ≠ s) :
    routineRows (writeRow db i r pw) s = routineRows db s := by
  have h := routineRows_writeRow_shift db i r pw old hu id (fun _ => rfl)
    (fun _ => rfl) s hs hsold (fun _ _ _ => rfl)
  rwa [List.map_id] at h

/-- Claim C10: every operation only touches the routines it names — a create
touches only the target routine, a same-routine update only that routine, a
cross-routine move only the source and target routines, and a delete only
the deleted item's routine; every other routine's rows are left exactly as
they were. -/
theorem per_routine_frame :
    (∀ (db : DB) (r newId : Nat) (prio : Option Nat) (s : Nat), s ≠ r →
      ∃ db2, RoutineItem.save db none newId r prio = some db2 ∧
        routineRows db2 s = routineRows db s) ∧
    (∀ (db : DB) (i newId r : Nat) (prio : Option Nat)
        (old : RoutineItemRow) (s : Nat), uniqueRow db i old →
        old.routine = r → s ≠ r →
      ∀ db2, RoutineItem.save db (some i) newId r prio = some db2 →
        routineRows db2 s = routineRows db s) ∧
    (∀ (db : DB) (i newId r2 : Nat) (prio : Option Nat)
        (old : RoutineItemRow) (s : Nat), uniqueRow db i old →
        old.routine ≠ r2 → s ≠ old.routine → s ≠ r2 →
      ∀ db2, RoutineItem.save db (some i) newId r2 prio = some db2 →
        routineRows db2 s = routineRows db s) ∧
    (∀ (db : DB) (self : RoutineItemRow) (s : Nat),
        uniqueRow db self.id self → s ≠ self.routine →
      ∀ db2, RoutineItem.delete db self = some db2 →
        routineRows db2 s = routineRows db s) := by
  refine ⟨?_, ?_, ?_, ?_⟩
  · intro db r newId prio s hs
    have hsing : ∀ q : Option Nat,
        routineRows [(⟨newId, r, q⟩ : RoutineItemRow)] s = [] := by
      intro q
      simp [routineRows, Ne.symm hs]
    cases prio with
    | none =>
      refine ⟨_, save_create_absent db newId r, ?_⟩
      rw [routineRows_append, hsing, List.append_nil]
    | some p =>
      refine ⟨_, save_create_explicit db newId r p, ?_⟩
      rw [routineRows_append, hsing, List.append_nil]
      apply routineRows_map
      · intro row _ hrs
        rw [if_neg (by simp [hrs, hs, Ne.symm hs])]
      · intro row hrow hFr
        have hrr := (shiftF_routine_up r p row).symm.trans hFr
        rw [if_neg (by simp [hrr, hs, Ne.symm hs])]
  · intro db i newId r prio old s hu hor hs db2 hsave
    have hf := findRow_of_uniqueRow db i old hu
    have hsold : old.routine ≠ s := by rw [hor]; exact Ne.symm hs
    rcases hpold : old.priority with _ | op
    · cases prio with
      | none =>
        rw [save_same_keep db i newId r none old hf hor hpold] at hsave
        cases hsave
        exact routineRows_writeRow db i r none old hu s hs hsold
      | some np =>
        rw [save_same_explicit_none_old db i newId r np old hf hor hpold]
          at hsave
        exact Option.noConfusion hsave
    · cases prio with
      | none =>
        rw [save_same_absent_raw db i newId r op old hf hor hpold] at hsave
        split_ifs at hsave <;> cases hsave
        · unfold shiftUpRange
          exact routineRows_writeRow_shift db i r _ old hu _
            (shiftF_id_upRange r _ op) (shiftF_routine_upRange r _ op) s hs
            hsold (fun row _ hrs => by simp [hrs, hs, Ne.symm hs])
        · unfold shiftDownRange
          exact routineRows_writeRow_shift db i r _ old hu _
            (shiftF_id_downRange r op _) (shiftF_routine_downRange r op _) s
            hs hsold (fun row _ hrs => by simp [hrs, hs, Ne.symm hs])
      | some np =>
        rcases Nat.lt_trichotomy np op with hlt | heq | hgt
        · rw [save_same_up db i newId r np op old hf hor hpold hlt] at hsave
          cases hsave
          unfold shiftUpRange
          exact routineRows_writeRow_shift db i r _ old hu _
            (shiftF_id_upRange r np op) (shiftF_routine_upRange r np op) s hs
            hsold (fun row _ hrs => by simp [hrs, hs, Ne.symm hs])
        · rw [save_same_keep db i newId r (some np) old hf hor
            (by rw [hpold, heq])] at hsave
          cases hsave
          exact routineRows_writeRow db i r (some np) old hu s hs hsold
        · rw [save_same_down db i newId r np op old hf hor hpold hgt] at hsave
          cases hsave
          unfold shiftDownRange
          exact routineRows_writeRow_shift db i r _ old hu _
            (shiftF_id_downRange r op np) (shiftF_routine_downRange r op np)
            s hs hsold (fun row _ hrs => by simp [hrs, hs, Ne.symm hs])
  · intro db i newId r2 prio old s hu hne2 hsold hs2 db2 hsave
    have hf := findRow_of_uniqueRow db i old hu
    rcases hpold : old.priority with _ | p
    · rw [save_cross_none_old db i newId r2 prio old hf hne2 hpold] at hsave
      exact Option.noConfusion hsave
    · cases prio with
      | none =>
        rw [save_cross_absent db i newId old.routine r2 p old hf rfl hpold
          hne2] at hsave
        cases hsave
        unfold shiftDownAfter
        exact routineRows_writeRow_shift db i r2 _ old hu _
          (shiftF_id_down old.routine p) (shiftF_routine_down old.routine p)
          s hs2 (Ne.symm hsold)
          (fun row _ hrs => by simp [hrs, hsold])
      | some p2 =>
        rw [save_cross_explicit db i newId old.routine r2 p p2 old hf rfl
          hpold hne2] at hsave
        cases hsave
        unfold shiftUpFrom shiftDownAfter
        rw [List.map_map]
        simp only [Function.comp_def]
        exact routineRows_writeRow_shift db i r2 _ old hu _
          (fun row => (shiftF_id_up r2 p2 _).trans
            (shiftF_id_down old.routine p row))
          (fun row => (shiftF_routine_up r2 p2 _).trans
            (shiftF_routine_down old.routine p row))
          s hs2 (Ne.symm hsold)
          (fun row _ hrs => by
            rw [show (if row.routine == old.routine &&
                priGt row.priority p then decRow row else row) = row from by
              rw [if_neg (by simp [hrs, hsold])]]
            rw [if_neg (by simp [hrs, hs2, Ne.symm hs2])])
  · intro db self s hu hs db2 hsave
    rcases hpold : self.priority with _ | p
    · rw [delete_none db self hpold] at hsave
      exact Option.noConfusion hsave
    · rw [delete_eq db self p hpold] at hsave
      cases hsave
      rw [show routineRows (shiftDownAfter
          (db.filter fun row => !(row.id == self.id)) self.routine p) s =
          routineRows (db.filter fun row => !(row.id == self.id)) s from by
        unfold shiftDownAfter
        apply routineRows_map
        · intro row _ hrs
          rw [if_neg (by simp [hrs, hs, Ne.symm hs])]
        · intro row hrow hFr
          have := (shiftF_routine_down self.routine p row).symm.trans hFr
          rw [if_neg (by simp [this, hs, Ne.symm hs])]]
      apply routineRows_filter_id
      intro row hrow hrs hc
      have := uniqueRow_eq db self.id self hu row hrow hc
      exact hs (by rw [← this, hrs])

theorem per_routine_frame_witness :
    uniqueRow [⟨1, 1, some 1⟩, ⟨2, 2, some 1⟩] 1 ⟨1, 1, some 1⟩ ∧
      routineRows [⟨1, 1, some 2⟩, ⟨2, 2, some 1⟩] 2 =
        routineRows [⟨1, 1, some 1⟩, ⟨2, 2, some 1⟩] 2 :=
  ⟨by decide,
    (per_routine_frame.2.1 [⟨1, 1, some 1⟩, ⟨2, 2, some 1⟩] 1 0 1 (some 2)
      ⟨1, 1, some 1⟩ 2 (by decide) (by decide) (by decide)
      [⟨1, 1, some 2⟩, ⟨2, 2, some 1⟩] (by decide))⟩

